import Mathlib

/-!
# Habit tracker front end (static/app.js): a verification development

The browser script `static/app.js` is embedded function by function.

Modelling conventions
* The numbers of a payload (counts, totals, identifiers) are the values `JSON.parse`
  yields, integers held as binary64 numbers; they are `Int`.  Arithmetic on them is
  rounded as binary64 arithmetic is (`fl`, `toDouble`): the quotient and the product
  of `weekly_total / 7 * 100`, and the sum `max + 1` of the chart.
* A `Date` object is its time value: `none` is the invalid date (NaN), `some t`
  is `t` milliseconds since the epoch with `|t| ≤ 8.64e15` (ECMAScript
  TimeClip).  The date functions are the ones of ECMA-262 (Day, YearFromTime,
  MonthFromTime, DateFromTime, MakeDay, MakeDate, TimeClip, LocalTime, UTC).
  The local time zone is a `Zone`: the two offset functions `LocalTZA(t, true)`
  and `LocalTZA(t, false)` of ECMA-262, so zones with transitions are covered.
* `renderTable` builds markup from fixed pieces and payload texts and has the
  browser parse it.  The fixed pieces are represented by the elements they denote;
  the payload texts are followed through the parse (`scanText`, `attrSafe`,
  `parseRows`): plain texts stay, a text that opens a comment ends the table, and
  for other texts the outcome is left open (`modelled = false`).
* jQuery calls are explicit state passing on the page; `.data()` converts the
  attribute texts it reads (`jqData`); a request is a value that records its `done`
  callbacks.
-/

namespace HabitTracker

/-! ## Numbers -/

/-- The exceptions the script can meet. -/
inductive JSError where
  | rangeError
  deriving DecidableEq, Repr

deriving instance DecidableEq for Except

/-- Nearest integer, ties to the even one. -/
def roundHalfEven (x : ℚ) : Int :=
  if x - ⌊x⌋ < 1 / 2 then ⌊x⌋
  else if 1 / 2 < x - ⌊x⌋ then ⌊x⌋ + 1
  else if ⌊x⌋ % 2 = 0 then ⌊x⌋
  else ⌊x⌋ + 1

/-- The binary64 number nearest to `x` (53 significant bits, ties to even), the
exponent range left aside. -/
def fl (x : ℚ) : ℚ :=
  if x = 0 then 0
  else (roundHalfEven (x / 2 ^ (Int.log 2 |x| - 52)) : ℚ) * 2 ^ (Int.log 2 |x| - 52)

/-- The result of an arithmetic operation whose exact value is `x`, as JavaScript
holds it: the nearest binary64 number, `none` when that overflows to an infinity.
(Results below `2^-1022` in magnitude would lose precision; none arises here, the
operands being integers, 7 and 100.) -/
def toDouble (x : ℚ) : Option ℚ :=
  if (2 : ℚ) ^ (1024 : Nat) ≤ |fl x| then none else some (fl x)

/-- `Math.round`: the nearest integer, ties going towards plus infinity. -/
def mathRound (x : ℚ) : Int := ⌊x + 1 / 2⌋

/-! ## ECMAScript dates -/

def msPerDay : Int := 86400000
def msPerHour : Int := 3600000
def msPerMinute : Int := 60000
def msPerSecond : Int := 1000

/-- Largest magnitude of a time value (TimeClip). -/
def maxTime : Int := 8640000000000000

def Day (t : Int) : Int := t / msPerDay

def TimeWithinDay (t : Int) : Int := t % msPerDay

def DaysInYear (y : Int) : Int :=
  if y % 4 ≠ 0 then 365
  else if y % 100 ≠ 0 then 366
  else if y % 400 ≠ 0 then 365
  else 366

def DayFromYear (y : Int) : Int :=
  365 * (y - 1970) + (y - 1969) / 4 - (y - 1901) / 100 + (y - 1601) / 400

def TimeFromYear (y : Int) : Int := msPerDay * DayFromYear y

/-- The year containing day number `d`: the largest `y` with `DayFromYear y ≤ d`
(see `YearFromDay_spec`), found from the mean year length 365.2425. -/
def YearFromDay (d : Int) : Int :=
  let y0 := 1970 + (d * 10000) / 3652425
  if DayFromYear (y0 + 1) ≤ d then y0 + 1
  else if DayFromYear y0 ≤ d then y0
  else y0 - 1

def YearFromTime (t : Int) : Int := YearFromDay (Day t)

def InLeapYear (t : Int) : Int := if DaysInYear (YearFromTime t) = 366 then 1 else 0

def DayWithinYear (t : Int) : Int := Day t - DayFromYear (YearFromTime t)

/-- MonthFromTime as a function of the day within the year `d` and the leap flag `l`. -/
def monthOfYearDay (d l : Int) : Int :=
  if d < 31 then 0
  else if d < 59 + l then 1
  else if d < 90 + l then 2
  else if d < 120 + l then 3
  else if d < 151 + l then 4
  else if d < 181 + l then 5
  else if d < 212 + l then 6
  else if d < 243 + l then 7
  else if d < 273 + l then 8
  else if d < 304 + l then 9
  else if d < 334 + l then 10
  else 11

def MonthFromTime (t : Int) : Int := monthOfYearDay (DayWithinYear t) (InLeapYear t)

/-- DateFromTime as a function of the month `m`, the day within the year `d` and the
leap flag `l`. -/
def dateOfYearDay (m d l : Int) : Int :=
  match m with
  | 0 => d + 1
  | 1 => d - 30
  | 2 => d - 58 - l
  | 3 => d - 89 - l
  | 4 => d - 119 - l
  | 5 => d - 150 - l
  | 6 => d - 180 - l
  | 7 => d - 211 - l
  | 8 => d - 242 - l
  | 9 => d - 272 - l
  | 10 => d - 303 - l
  | _ => d - 333 - l

def DateFromTime (t : Int) : Int :=
  dateOfYearDay (MonthFromTime t) (DayWithinYear t) (InLeapYear t)

def HourFromTime (t : Int) : Int := (t / msPerHour) % 24
def MinFromTime (t : Int) : Int := (t / msPerMinute) % 60
def SecFromTime (t : Int) : Int := (t / msPerSecond) % 60
def msFromTime (t : Int) : Int := t % msPerSecond

def MakeTime (hour min sec ms : Int) : Int :=
  hour * msPerHour + min * msPerMinute + sec * msPerSecond + ms

/-- Day number of the first day of month `mn` (0..11) in a year with leap flag `l`. -/
def monthStart (mn l : Int) : Int :=
  match mn with
  | 0 => 0
  | 1 => 31
  | 2 => 59 + l
  | 3 => 90 + l
  | 4 => 120 + l
  | 5 => 151 + l
  | 6 => 181 + l
  | 7 => 212 + l
  | 8 => 243 + l
  | 9 => 273 + l
  | 10 => 304 + l
  | _ => 334 + l

/-- MakeDay: the day number of the first of the month `(ym, mn)`, plus `date - 1`. -/
def MakeDay (year month date : Int) : Int :=
  let ym := year + month / 12
  let mn := month % 12
  let l : Int := if DaysInYear ym = 366 then 1 else 0
  DayFromYear ym + monthStart mn l + date - 1

def MakeDate (day time : Int) : Int := day * msPerDay + time

/-- TimeClip: `none` is NaN. -/
def TimeClip (t : Int) : Option Int := if maxTime < |t| then none else some t

/-- The local time zone, as ECMA-262 sees it: `utcOffset t` is `LocalTZA(t, true)`,
the offset in milliseconds of local time from UTC at the UTC time value `t`;
`localOffset l` is `LocalTZA(l, false)`, the offset used to read the local time
value `l` (for a local time skipped or repeated by a transition the engine picks
one). -/
structure Zone where
  utcOffset : Int → Int
  localOffset : Int → Int

/-- A zone without transitions, `tza` milliseconds east of Greenwich. -/
def fixedZone (tza : Int) : Zone := ⟨fun _ => tza, fun _ => tza⟩

def LocalTime (tz : Zone) (t : Int) : Int := t + tz.utcOffset t

def UTC (tz : Zone) (t : Int) : Int := t - tz.localOffset t

/-- A `Date` object; `tv = none` is the invalid date. -/
structure JSDate where
  tv : Option Int
  deriving DecidableEq, Repr

/-- `Date.prototype.getDate`: day of the month in local time, NaN on an invalid date. -/
def JSDate.getDate (tz : Zone) (D : JSDate) : Option Int :=
  D.tv.map fun t => DateFromTime (LocalTime tz t)

/-- `Date.prototype.setDate(dt)` (the object after the call); a NaN argument or an
invalid receiver gives the invalid date. -/
def JSDate.setDate (tz : Zone) (D : JSDate) (dt : Option Int) : JSDate :=
  match D.tv, dt with
  | some t, some n =>
    let lt := LocalTime tz t
    let newDate := MakeDate (MakeDay (YearFromTime lt) (MonthFromTime lt) n) (TimeWithinDay lt)
    ⟨TimeClip (UTC tz newDate)⟩
  | _, _ => ⟨none⟩

/-! ### Text of dates -/

def digitChar (n : Nat) : Char := Char.ofNat (48 + n % 10)

def pad2 (n : Nat) : List Char := [digitChar (n / 10), digitChar n]

def pad3 (n : Nat) : List Char := [digitChar (n / 100), digitChar (n / 10), digitChar n]

def pad4 (n : Nat) : List Char :=
  [digitChar (n / 1000), digitChar (n / 100), digitChar (n / 10), digitChar n]

def pad6 (n : Nat) : List Char :=
  [digitChar (n / 100000), digitChar (n / 10000), digitChar (n / 1000),
   digitChar (n / 100), digitChar (n / 10), digitChar n]

/-- Year field of `toISOString`: four digits for 0..9999, else a sign and six digits. -/
def isoYear (y : Int) : List Char :=
  if 0 ≤ y ∧ y ≤ 9999 then pad4 y.toNat
  else if 0 ≤ y then '+' :: pad6 y.toNat
  else '-' :: pad6 (-y).toNat

/-- The characters of `toISOString()` for a valid time value (UTC fields). -/
def isoChars (t : Int) : List Char :=
  isoYear (YearFromTime t) ++ '-' :: pad2 (MonthFromTime t + 1).toNat ++ '-' ::
    pad2 (DateFromTime t).toNat ++ 'T' :: pad2 (HourFromTime t).toNat ++ ':' ::
    pad2 (MinFromTime t).toNat ++ ':' :: pad2 (SecFromTime t).toNat ++ '.' ::
    pad3 (msFromTime t).toNat ++ ['Z']


/-- `Date.prototype.toISOString`: throws RangeError on the invalid date. -/
def JSDate.toISOString (D : JSDate) : Except JSError String :=
  match D.tv with
  | none => .error .rangeError
  | some t => .ok (String.mk (isoChars t))

/-- `s.slice(0, n)` for `0 ≤ n`. -/
def sliceTo (s : String) (n : Nat) : String := String.mk (s.data.take n)

def digitVal (c : Char) : Option Int :=
  if 48 ≤ c.toNat ∧ c.toNat ≤ 57 then some ((c.toNat : Int) - 48) else none

def num2 (a b : Char) : Option Int := do
  let x ← digitVal a
  let y ← digitVal b
  pure (10 * x + y)

def num4 (a b c d : Char) : Option Int := do
  let x ← num2 a b
  let y ← num2 c d
  pure (100 * x + y)

def DaysInMonth (y m : Int) : Int :=
  if m = 2 then (if DaysInYear y = 366 then 29 else 28)
  else if m = 4 ∨ m = 6 ∨ m = 9 ∨ m = 11 then 30
  else 31

def num6 (a b c d e f : Char) : Option Int := do
  let x ← num2 a b
  let y ← num4 c d e f
  pure (10000 * x + y)

/-- The fields of a date-time text checked and turned into a time value: a field out
of range gives the invalid date.  A day of 29..31 beyond the length of the month is
accepted and rolls over into the next month, as V8 does (`2023-02-29` reads as
1 March 2023). -/
def dateTimeOfFields (tz : Zone) (y m d h n s : Int) : JSDate :=
  if 1 ≤ m ∧ m ≤ 12 ∧ 1 ≤ d ∧ d ≤ 31 ∧ h ≤ 23 ∧ n ≤ 59 ∧ s ≤ 59 then
    ⟨TimeClip (UTC tz (MakeDate (MakeDay y (m - 1) d) (MakeTime h n s 0)))⟩
  else ⟨none⟩

/-- `new Date(str)` for the date-time forms `YYYY-MM-DDTHH:mm:ss` and
`±YYYYYY-MM-DDTHH:mm:ss` (expanded year) without a zone designator, which ECMAScript
reads as local time.  The program only builds strings `start + "T00:00:00"`; a text
of another shape gives the invalid date here. -/
def parseLocalDateTime (tz : Zone) (str : String) : JSDate :=
  match str.data with
  | [y1, y2, y3, y4, '-', m1, m2, '-', d1, d2, 'T', h1, h2, ':', n1, n2, ':', s1, s2] =>
    match num4 y1 y2 y3 y4, num2 m1 m2, num2 d1 d2, num2 h1 h2, num2 n1 n2, num2 s1 s2 with
    | some y, some m, some d, some h, some n, some s => dateTimeOfFields tz y m d h n s
    | _, _, _, _, _, _ => ⟨none⟩
  | [sg, y1, y2, y3, y4, y5, y6, '-', m1, m2, '-', d1, d2, 'T', h1, h2, ':', n1, n2, ':',
      s1, s2] =>
    match num6 y1 y2 y3 y4 y5 y6, num2 m1 m2, num2 d1 d2, num2 h1 h2, num2 n1 n2,
      num2 s1 s2 with
    | some y, some m, some d, some h, some n, some s =>
      if sg = '+' then dateTimeOfFields tz y m d h n s
      else if sg = '-' ∧ y ≠ 0 then dateTimeOfFields tz (-y) m d h n s
      else ⟨none⟩
    | _, _, _, _, _, _ => ⟨none⟩
  | _ => ⟨none⟩

/-- Source `isoToDate(s)`: `new Date(s + "T00:00:00")`. -/
def isoToDate (tz : Zone) (s : String) : JSDate := parseLocalDateTime tz (s ++ "T00:00:00")

/-! ## Strings -/

/-- WhiteSpace and LineTerminator code points, the ones `String.prototype.trim` removes. -/
def isJsSpace (c : Char) : Bool :=
  let n := c.toNat
  n = 9 || n = 10 || n = 11 || n = 12 || n = 13 || n = 32 || n = 160 || n = 5760 ||
    (8192 ≤ n && n ≤ 8202) || n = 8232 || n = 8233 || n = 8239 || n = 8287 ||
    n = 12288 || n = 65279

/-- `String.prototype.trim`. -/
def jsTrim (s : String) : String :=
  String.mk ((s.data.dropWhile isJsSpace).reverse.dropWhile isJsSpace).reverse

def hexChar (n : Nat) : Char :=
  if n % 16 < 10 then Char.ofNat (48 + n % 16) else Char.ofNat (55 + n % 16)

def utf8Bytes (c : Char) : List Nat :=
  let n := c.toNat
  if n < 128 then [n]
  else if n < 2048 then [192 + n / 64, 128 + n % 64]
  else if n < 65536 then [224 + n / 4096, 128 + n / 64 % 64, 128 + n % 64]
  else [240 + n / 262144, 128 + n / 4096 % 64, 128 + n / 64 % 64, 128 + n % 64]

/-- Characters `encodeURIComponent` leaves alone: letters, digits and `- _ . ! ~ * ( )`
and the apostrophe (code 39). -/
def isUnreserved (c : Char) : Bool :=
  let n := c.toNat
  (65 ≤ n && n ≤ 90) || (97 ≤ n && n ≤ 122) || (48 ≤ n && n ≤ 57) ||
    n = 45 || n = 95 || n = 46 || n = 33 || n = 126 || n = 42 || n = 39 || n = 40 || n = 41

def encodeChar (c : Char) : List Char :=
  if isUnreserved c then [c]
  else (utf8Bytes c).flatMap fun b => ['%', hexChar (b / 16), hexChar b]

/-- `encodeURIComponent` (a Lean string has no lone surrogate, so it never throws). -/
def encodeURIComponent (s : String) : String := String.mk (s.data.flatMap encodeChar)

/-! ## Data model -/

/-- A habit of the week payload; `entries d = none` is a missing key. -/
structure Habit where
  id : Int
  name : String
  entries : String → Option Int
  weekly_total : Int

/-- The payload of `GET /api/week`. -/
structure WeekData where
  start : String
  end_ : String
  days : List String
  daily_sums : List Int
  habits : List Habit

/-! ## Table markup

`renderTable` concatenates fixed pieces of markup with payload texts, unescaped, and
`.html()` has the browser parse the result.  The fixed pieces are taken as the
elements they denote.  The payload texts are followed through the tokenizer: a text
without markup characters stays what it is; a text that opens a comment swallows
what follows it; for any other text the outcome is left open (`modelled = false`).
The texts the browser produces for the header (weekday and localized date) are
taken to hold no markup. -/

/-- What the tokenizer makes of a payload text placed as the content of an element:
`plain` is text without `<`, `&`, NUL or CR, kept as it is; `opensComment` is plain
text followed by `<!--` and then no `>`, which leaves the tokenizer inside a
comment at the end of the text; `other` is anything else. -/
inductive TextScan where
  | plain
  | opensComment
  | other
  deriving DecidableEq, Repr

def plainTextChar (c : Char) : Bool :=
  c ≠ '<' && c ≠ '&' && c.toNat ≠ 0 && c.toNat ≠ 13

def scanText (s : String) : TextScan :=
  let r := s.data.dropWhile plainTextChar
  if r = [] then .plain
  else if r.take 4 = ['<', '!', '-', '-'] ∧ (r.drop 4).all (fun c => c ≠ '>') then
    .opensComment
  else .other

/-- A text that a double-quoted attribute value keeps as it is: no `"`, `&`, NUL
or CR. -/
def attrSafe (s : String) : Bool :=
  s.data.all fun c => c ≠ '"' && c ≠ '&' && c.toNat ≠ 0 && c.toNat ≠ 13

/-- A text that cannot close a comment: it holds no `>` (every way out of a comment
ends in `>`, and the fixed pieces of the markup hold no `--`). -/
def commentSafe (s : String) : Bool := s.data.all fun c => c ≠ '>'

inductive HeaderCell where
  | habit
  | day (d : String)
  | weeklyTotal
  deriving DecidableEq, Repr

/-- A day cell: `td` with its class list, the text of its `data-date` attribute, the
number whose text is its `data-habit` attribute, and the button text. -/
structure DayCell where
  classes : List String
  dataDate : String
  dataHabit : Int
  buttonText : String
  deriving DecidableEq, Repr

/-- A row of the table body: the placeholder; the full row of a habit; or the row of
a habit whose name opened a comment, which ends inside its name cell (no day cell,
no trailing cell). -/
inductive BodyRow where
  | placeholder (colspan : Int) (text : String)
  | habitRow (habitId : Int) (name : String) (cells : List DayCell) (total : Int)
      (percent : Option Int)
  | nameOnly (habitId : Int) (name : String)
  deriving DecidableEq, Repr

/-- The parsed table: `modelled = false` says that the markup left the cases
followed here, and then `body` says nothing about the document. -/
structure TableMarkup where
  header : List HeaderCell
  body : List BodyRow
  modelled : Bool
  deriving DecidableEq, Repr

/-- Source line 38: `h.entries[d] || 0`. -/
def entryVal (h : Habit) (d : String) : Int :=
  match h.entries d with
  | some n => if n = 0 then 0 else n
  | none => 0

/-- Source lines 37-47: the cell of habit `h` on day `d`. -/
def dayCell (h : Habit) (d : String) : DayCell :=
  let val := entryVal h d
  let checked := if val > 0 then "table-success" else ""
  { classes := ["text-center", "cell", checked].filter (fun c => c ≠ "")
    dataDate := d
    dataHabit := h.id
    buttonText := if val > 0 then "✓" else "" }

/-- Source line 52: `Math.round(h.weekly_total / 7 * 100)`, the quotient and the
product each rounded to binary64; `none` is a non-finite result. -/
def percentOfWeek (w : Int) : Option Int :=
  (toDouble ((w : ℚ) / 7)).bind fun q => (toDouble (q * 100)).map mathRound

/-- Source lines 33-55: the row of habit `h` when its markup is parsed in full. -/
def habitRow (days : List String) (h : Habit) : BodyRow :=
  .habitRow h.id h.name (days.map (dayCell h)) h.weekly_total (percentOfWeek h.weekly_total)

/-- Source lines 33-55 followed by the parse: the rows of the habits, and whether
the parse stayed within the cases followed here.  A plain name gives the full row
(the day texts have to be safe as attribute values); a name that opens a comment
ends the table inside its name cell, provided no later text can close the comment. -/
def parseRows (days : List String) : List Habit → List BodyRow × Bool
  | [] => ([], true)
  | h :: hs =>
    match scanText h.name with
    | .plain =>
      if days.all attrSafe then
        ((habitRow days h) :: (parseRows days hs).1, (parseRows days hs).2)
      else ([], false)
    | .opensComment =>
      ([.nameOnly h.id h.name],
        days.all commentSafe && hs.all fun k => commentSafe k.name)
    | .other => ([], false)

/-- Source lines 13-58 and the parse of line 59: the table `renderTable` installs. -/
def tableMarkup (data : WeekData) : TableMarkup :=
  let days := data.days
  let habits := data.habits
  { header := HeaderCell.habit :: days.map HeaderCell.day ++ [HeaderCell.weeklyTotal]
    body :=
      if habits.length = 0 then [.placeholder (days.length + 2) "No habits found"]
      else (parseRows days habits).1
    modelled := if habits.length = 0 then true else (parseRows days habits).2 }

/-! ## Page, handlers and requests -/

/-- Click handlers in the script: the function of source lines 62-80. -/
inductive Handler where
  | toggleCell
  deriving DecidableEq, Repr

/-- The `done` callbacks in the script: lines 77-79 and lines 155-158. -/
inductive Callback where
  | reloadWeek
  | clearInputAndReload
  deriving DecidableEq, Repr

/-- What jQuery `.data()` returns for an attribute: the text itself, or a number;
`other` stands for a converted value that is not followed here (a boolean, `null`,
a number read from a text, parsed JSON). -/
inductive DataValue where
  | text (s : String)
  | number (n : Int)
  | other
  deriving DecidableEq, Repr

def alnumChar (c : Char) : Bool :=
  (48 ≤ c.toNat && c.toNat ≤ 57) || (65 ≤ c.toNat && c.toNat ≤ 90) ||
    (97 ≤ c.toNat && c.toNat ≤ 122)

/-- Every character is a letter, a digit, a dot, or a sign that directly follows
`e` or `E` (`prev` is the character before the list). -/
def numberBody : Char → List Char → Bool
  | _, [] => true
  | prev, c :: cs =>
    (alnumChar c || c = '.' || ((c = '+' || c = '-') && (prev = 'e' || prev = 'E'))) &&
      numberBody c cs

/-- Texts that may be the text of a number (a superset of them): after trimming and
one leading sign, letters, digits and dots, with signs only after an exponent mark;
the empty text is counted in. -/
def possiblyNumber (s : String) : Bool :=
  let t := (s.data.dropWhile isJsSpace).reverse.dropWhile isJsSpace |>.reverse
  match t with
  | [] => true
  | c :: cs => if c = '+' || c = '-' then numberBody c cs else numberBody ' ' (c :: cs)

/-- The value of a text of decimal digits. -/
def digitsValue (cs : List Char) : Nat :=
  cs.foldl (fun acc c => 10 * acc + (c.toNat - 48)) 0

/-- A text of at most 15 decimal digits without a leading zero (or the text `0`):
the text of a non-negative safe integer. -/
def plainNatText (s : String) : Bool :=
  s.data ≠ [] && s.data.length ≤ 15 && s.data.all (fun c => 48 ≤ c.toNat && c.toNat ≤ 57) &&
    (s.data.head? ≠ some '0' || s.data.length = 1)

/-- jQuery `.data(key)` on an attribute whose text is a payload string: the texts
`true`, `false`, `null`, the texts of numbers and the texts in braces or brackets
are converted; every other text is returned as it is.  Of the conversions only the
one of a plain natural number is followed. -/
def jqData (s : String) : DataValue :=
  if s = "true" ∨ s = "false" ∨ s = "null" then .other
  else if plainNatText s then .number (digitsValue s.data)
  else if possiblyNumber s then .other
  else if s.data.head? = some '{' ∨ s.data.head? = some '[' then .other
  else .text s

/-- The object given to `JSON.stringify` for a request body. -/
inductive Body where
  | entry (habit_id : DataValue) (date : DataValue) (value : Int)
  | habit (name : String)
  deriving DecidableEq, Repr

/-- A `$.ajax` call with the callbacks attached through `.done`. -/
structure AjaxRequest where
  url : String
  method : String
  contentType : String
  data : Body
  done : List Callback
  deriving DecidableEq, Repr

/-- An element of class `cell` in the document with its click handlers. -/
structure CellNode where
  cell : DayCell
  handlers : List Handler
  deriving DecidableEq, Repr

inductive RowNode where
  | placeholder (colspan : Int) (text : String)
  | habitRow (habitId : Int) (name : String) (cells : List CellNode) (total : Int)
      (percent : Option Int)
  | nameOnly (habitId : Int) (name : String)
  deriving Repr

def RowNode.cells : RowNode → List CellNode
  | .habitRow _ _ cells _ _ => cells
  | _ => []

def RowNode.mapCells (f : CellNode → CellNode) : RowNode → RowNode
  | .habitRow i n cells t p => .habitRow i n (cells.map f) t p
  | r => r

/-- The document: the content of `#habitTable`, the elements of class `cell` that
lie outside the table, and whether the last parse stayed within the cases followed
here. -/
structure Page where
  header : List HeaderCell
  body : List RowNode
  outside : List CellNode
  modelled : Bool

/-- Fresh elements carry no handler. -/
def BodyRow.toNode : BodyRow → RowNode
  | .placeholder c t => .placeholder c t
  | .habitRow i n cells t p => .habitRow i n (cells.map fun c => ⟨c, []⟩) t p
  | .nameOnly i n => .nameOnly i n

/-- `$("#habitTable").html(html)`: the table content is replaced by fresh elements. -/
def Page.setTableHtml (page : Page) (m : TableMarkup) : Page :=
  { page with header := m.header, body := m.body.map BodyRow.toNode, modelled := m.modelled }

/-- Apply `f` to every element selected by `$(".cell")`. -/
def Page.mapCells (page : Page) (f : CellNode → CellNode) : Page :=
  { page with body := page.body.map (RowNode.mapCells f), outside := page.outside.map f }

/-- `$(".cell").off("click")`. -/
def Page.offClick (page : Page) : Page := page.mapCells fun n => { n with handlers := [] }

/-- `$(".cell").on("click", h)`. -/
def Page.onClick (page : Page) (h : Handler) : Page :=
  page.mapCells fun n => { n with handlers := n.handlers ++ [h] }

/-- Source `renderTable(data)`. -/
def renderTable (data : WeekData) (page : Page) : Page :=
  ((page.setTableHtml (tableMarkup data)).offClick).onClick .toggleCell

/-- All elements of class `cell` in the document. -/
def Page.allCells (page : Page) : List CellNode :=
  page.body.flatMap RowNode.cells ++ page.outside

/-- The cell in body row `i`, day column `j`. -/
def Page.cellAt (page : Page) (i j : Nat) : Option CellNode :=
  match page.body[i]? with
  | some row => row.cells[j]?
  | none => none

/-- Source lines 62-80: the click handler run on the element `node`.  The date is
read with `.data("date")` from the attribute text; the habit is read with
`.data("habit")` from the text of a number, which `.data()` turns back into that
number. -/
def toggleCell (node : CellNode) : AjaxRequest :=
  let date := jqData node.cell.dataDate
  let habit := DataValue.number node.cell.dataHabit
  let isOn := decide ("table-success" ∈ node.cell.classes)
  let newVal : Int := if isOn then 0 else 1
  { url := "/api/entry"
    method := "POST"
    contentType := "application/json"
    data := .entry habit date newVal
    done := [.reloadWeek] }

def Handler.run (node : CellNode) : Handler → AjaxRequest
  | .toggleCell => HabitTracker.toggleCell node

/-- A click on `node`: every installed click handler runs once, in order. -/
def click (node : CellNode) : List AjaxRequest := node.handlers.map (Handler.run node)

/-! ## Week loader -/

/-- Source lines 84-93: the `params` array of `loadWeek`. -/
def loadWeekParams (baseDate : Option JSDate) (searchInput : Option String) :
    Except JSError (List String) := do
  let dateStr : Option String ←
    match baseDate with
    | some D => (fun s => some (sliceTo s 10)) <$> D.toISOString
    | none => pure none
  let search : String :=
    match searchInput with
    | some v => if v = "" then "" else v
    | none => ""
  let params : List String := []
  let params :=
    match dateStr with
    | some s => if s ≠ "" then params ++ ["date=" ++ s] else params
    | none => params
  let params := if search ≠ "" then params ++ ["search=" ++ encodeURIComponent search] else params
  pure params

/-- Source lines 83-99: the URL `loadWeek(baseDate)` passes to `$.getJSON`. -/
def loadWeek (baseDate : Option JSDate) (searchInput : Option String) :
    Except JSError String := do
  let params ← loadWeekParams baseDate searchInput
  let url := "/api/week"
  let url := if params.length > 0 then url ++ "?" ++ "&".intercalate params else url
  pure url

/-! ## Chart -/

/-- `Math.max(...xs)` in an engine that accepts at most `argLimit` arguments in a
call (more make the spread throw a RangeError); `none` stands for minus infinity
(the empty spread). -/
def mathMaxSpread (argLimit : Nat) (xs : List Int) : Except JSError (Option Int) :=
  if argLimit < xs.length then .error .rangeError
  else
    match xs with
    | [] => .ok none
    | x :: rest => .ok (some (rest.foldl max x))

/-- Source line 132: `Math.max(5, Math.max(...sums) + 1)`, the sum rounded to
binary64 (adding 1 to an integer-valued number cannot overflow). -/
def suggestedMax (argLimit : Nat) (sums : List Int) : Except JSError ℚ :=
  match mathMaxSpread argLimit sums with
  | .error e => .error e
  | .ok (some m) => .ok (max 5 (fl ((m : ℚ) + 1)))
  | .ok none => .ok 5

/-- The configuration `renderChart(days, sums)` gives to `new Chart`; the labels are
the short weekday names of `labelDays` in the browser locale. -/
structure ChartConfig where
  type : String
  labelDays : List String
  datasetLabel : String
  data : List Int
  beginAtZero : Bool
  suggestedMax : ℚ
  legendDisplay : Bool
  deriving DecidableEq, Repr

/-- Source lines 107-140: `renderChart(days, sums)`; the previous chart, if any, is
destroyed and replaced by the one built from this configuration; building the
options may throw. -/
def renderChart (argLimit : Nat) (days : List String) (sums : List Int) :
    Except JSError ChartConfig :=
  match suggestedMax argLimit sums with
  | .error e => .error e
  | .ok mx =>
    .ok
      { type := "line"
        labelDays := days
        datasetLabel := "Daily Completions"
        data := sums
        beginAtZero := true
        suggestedMax := mx
        legendDisplay := false }

/-! ## Application state and controller -/

/-- The globals `currentDate` and `dailyChart` (the live chart, if any), the
document, the two input fields and the limit of the engine on call arguments;
`weekLabel` holds the arguments of the last `formatWeekLabel` call (the text
shown is their rendering in the browser locale). -/
structure App where
  argLimit : Nat
  currentDate : Option JSDate
  dailyChart : Option ChartConfig
  page : Page
  weekLabel : Option (String × String)
  newHabitInput : String
  searchInput : Option String

/-- Source lines 99-104: the `done` callback of `loadWeek` on payload `data`.  The
anchor and the label are set before the table and the chart are rendered; when
`renderChart` throws, the previous chart has already been destroyed, and `none`
stands for no live chart. -/
def loadWeekDone (tz : Zone) (data : WeekData) (app : App) : App :=
  { app with
    currentDate := some (isoToDate tz data.start)
    weekLabel := some (data.start, data.end_)
    page := renderTable data app.page
    dailyChart :=
      match renderChart app.argLimit data.days data.daily_sums with
      | .ok c => some c
      | .error _ => none }

/-- What a handler leaves for the browser to do. -/
inductive Effect where
  | alert (msg : String)
  | ajax (req : AjaxRequest)
  | getJSON (url : String)
  | uncaught (e : JSError)
  deriving DecidableEq, Repr

/-- `loadWeek(currentDate)` as an effect. -/
def reloadEffect (app : App) : Effect :=
  match loadWeek app.currentDate app.searchInput with
  | .ok url => .getJSON url
  | .error e => .uncaught e

/-- Run a `done` callback after its request succeeded. -/
def Callback.run (app : App) : Callback → App × List Effect
  | .reloadWeek => (app, [reloadEffect app])
  | .clearInputAndReload =>
    let app1 := { app with newHabitInput := "" }
    (app1, [reloadEffect app1])

/-- The week fetches a successful request triggers (its `done` callbacks, in order). -/
def onSuccess (app : App) (req : AjaxRequest) : List Effect :=
  req.done.flatMap fun cb => (cb.run app).2

/-- Source lines 146-159: click on `#addHabitBtn`. -/
def addHabitClick (app : App) : App × List Effect :=
  let name := jsTrim app.newHabitInput
  if name = "" then (app, [.alert "Enter habit name"])
  else
    (app, [.ajax
      { url := "/api/habit"
        method := "POST"
        contentType := "application/json"
        data := .habit name
        done := [.clearInputAndReload] }])

/-- Source lines 162-163 and 168-169: initialise the anchor if unset, then
`currentDate.setDate(currentDate.getDate() + delta)`. -/
def shiftAnchor (tz : Zone) (now delta : Int) (currentDate : Option JSDate) : JSDate :=
  let cd : JSDate :=
    match currentDate with
    | some D => D
    | none => ⟨some now⟩
  cd.setDate tz ((cd.getDate tz).map fun n => n + delta)

/-- Source lines 161-165: click on `#prevWeek`. -/
def prevWeekClick (tz : Zone) (now : Int) (app : App) : App × List Effect :=
  let app1 := { app with currentDate := some (shiftAnchor tz now (-7) app.currentDate) }
  (app1, [reloadEffect app1])

/-- Source lines 167-171: click on `#nextWeek`. -/
def nextWeekClick (tz : Zone) (now : Int) (app : App) : App × List Effect :=
  let app1 := { app with currentDate := some (shiftAnchor tz now 7 app.currentDate) }
  (app1, [reloadEffect app1])

/-! ## Reference values used in the statements -/

/-- A fresh row with the click handler installed on each of its day cells. -/
def installed (r : BodyRow) : RowNode :=
  (BodyRow.toNode r).mapCells fun n => ⟨n.cell, [Handler.toggleCell]⟩

/-- The node `renderTable` leaves for habit `h` when its row is parsed in full. -/
def renderedRow (days : List String) (h : Habit) : RowNode := installed (habitRow days h)

/-- The integer nearest to `100 * w / 7`, in exact arithmetic: the value the
specification names as `round(w / 7 * 100)`. -/
def nearestPercent (w : Int) : Int := mathRound ((w : ℚ) / 7 * 100)

/-- The names of the habits in rows `0..i` are plain text. -/
def PlainNamesUpTo (data : WeekData) (i : Nat) : Prop :=
  ∀ k h, k ≤ i → data.habits[k]? = some h → scanText h.name = TextScan.plain

/-- Every habit name of the payload is plain text. -/
def PlainNames (data : WeekData) : Prop :=
  ∀ h ∈ data.habits, scanText h.name = TextScan.plain

/-- The days of the payload are safe as attribute values. -/
def SafeDays (data : WeekData) : Prop := ∀ d ∈ data.days, attrSafe d = true

/-- The habit of the end-to-end example of the specification. -/
def exampleHabit : Habit :=
  { id := 1
    name := "Read"
    entries := fun d => if d = "2024-01-01" then some 1 else none
    weekly_total := 1 }

/-- The week payload of the end-to-end example of the specification. -/
def exampleWeek : WeekData :=
  { start := "2024-01-01"
    end_ := "2024-01-07"
    days := ["2024-01-01", "2024-01-02", "2024-01-03", "2024-01-04", "2024-01-05",
      "2024-01-06", "2024-01-07"]
    daily_sums := [1, 0, 2, 0, 0, 0, 0]
    habits := [exampleHabit] }

/-- A document whose table is still empty. -/
def emptyPage : Page := { header := [], body := [], outside := [], modelled := true }

/-- A week payload without habits. -/
def emptyWeek : WeekData :=
  { start := "2024-01-01"
    end_ := "2024-01-07"
    days := exampleWeek.days
    daily_sums := [0, 0, 0, 0, 0, 0, 0]
    habits := [] }

/-- Successive `renderTable` calls, one per payload, in order. -/
def renderAll (datas : List WeekData) (page : Page) : Page :=
  datas.foldl (fun p data => renderTable data p) page

/-- The request a click on the cell of `(habitId, d)` has to send for value `v`. -/
def toggleRequest (habitId : Int) (d : String) (v : Int) : AjaxRequest :=
  { url := "/api/entry"
    method := "POST"
    contentType := "application/json"
    data := .entry (.number habitId) (.text d) v
    done := [.reloadWeek] }

/-- A document holding a stray element of class `cell` that already has two handlers. -/
def strayPage : Page :=
  { header := []
    body := []
    outside := [⟨⟨["cell"], "2024-01-01", 7, ""⟩, [.toggleCell, .toggleCell]⟩]
    modelled := true }

/-- An application state before the first load. -/
def initialApp : App :=
  { argLimit := 65536
    currentDate := none
    dailyChart := none
    page := emptyPage
    weekLabel := none
    newHabitInput := ""
    searchInput := some "" }

/-- Split a query item `key=value` at its first equals sign. -/
def parseParam (p : String) : String × String :=
  (String.mk (p.data.takeWhile fun c => c ≠ '='),
    String.mk ((p.data.dropWhile fun c => c ≠ '=').drop 1))

/-- The text `loadWeek` reads from the search field (`?.value || ""`). -/
def searchText (searchInput : Option String) : String := searchInput.getD ""

/-- The `dateStr` of `loadWeek` for a valid time value: `toISOString().slice(0, 10)`. -/
def dateStrOf (t : Int) : String := sliceTo (String.mk (isoChars t)) 10

/-- The time value `setDate(getDate() + delta)` installs, before clipping: the local
time of `t` moved by `delta` days, read back in the zone. -/
def shiftedTime (tz : Zone) (t delta : Int) : Int :=
  UTC tz (LocalTime tz t + delta * msPerDay)

/-- The zone America/Sao_Paulo around the start of daylight saving on 4 November 2018:
UTC-3 before 03:00 UTC of that day and UTC-2 from then on; the skipped local hour
00:00..01:00 is read with the offset before the transition, as ECMA-262 prescribes.
Earlier and later transitions are left out. -/
def saoPaulo2018 : Zone :=
  { utcOffset := fun t => if t < 1541300400000 then -10800000 else -7200000
    localOffset := fun l => if l < 1541293200000 then -10800000 else -7200000 }

/-- A week payload starting on 28 October 2018. -/
def saoPauloWeek : WeekData :=
  { start := "2018-10-28"
    end_ := "2018-11-03"
    days := ["2018-10-28", "2018-10-29", "2018-10-30", "2018-10-31", "2018-11-01",
      "2018-11-02", "2018-11-03"]
    daily_sums := [0, 0, 0, 0, 0, 0, 0]
    habits := [] }

/-- The application state after that payload was loaded in Sao Paulo. -/
def saoPauloApp : App := loadWeekDone saoPaulo2018 saoPauloWeek initialApp

/-- The application state after the week starting on 21 October 2018 was loaded in
Sao Paulo. -/
def saoPauloEarlierApp : App :=
  loadWeekDone saoPaulo2018 { saoPauloWeek with start := "2018-10-21" } initialApp

/-- A week payload whose start is the last representable date, 13 September 275760. -/
def edgeWeek : WeekData :=
  { start := "+275760-09-13"
    end_ := "+275760-09-13"
    days := ["+275760-09-13"]
    daily_sums := [0]
    habits := [] }

/-- The application state after that payload was loaded in a browser at UTC: the
anchor is `new Date(8.64e15)`. -/
def edgeApp : App := loadWeekDone (fixedZone 0) edgeWeek initialApp

/-- The application state after a week that starts on 27 December 9999 was loaded in
a browser at UTC. -/
def lateApp : App :=
  loadWeekDone (fixedZone 0) { exampleWeek with start := "9999-12-27" } initialApp

/-- The request `addHabitClick` sends for the trimmed name `name`. -/
def createHabitRequest (name : String) : AjaxRequest :=
  { url := "/api/habit"
    method := "POST"
    contentType := "application/json"
    data := .habit name
    done := [.clearInputAndReload] }

/-! ## Calendar dates as text -/

/-- Length of month `m` (1..12) for leap flag `l`. -/
def monthLength (m l : Int) : Int :=
  if m = 2 then 28 + l
  else if m = 4 ∨ m = 6 ∨ m = 9 ∨ m = 11 then 30
  else 31

/-- The ISO calendar date text `YYYY-MM-DD`. -/
def isoDate (y m d : Nat) : String := String.mk (pad4 y ++ '-' :: pad2 m ++ '-' :: pad2 d)

/-- A calendar date of the years 0..9999 (the dates `YYYY-MM-DD` can name). -/
def ValidDate (y m d : Nat) : Prop :=
  y ≤ 9999 ∧ 1 ≤ m ∧ m ≤ 12 ∧ 1 ≤ d ∧ (d : Int) ≤ DaysInMonth y m

/-- The example habit with the weekly total 70368744177667. -/
def bigTotalHabit : Habit := { exampleHabit with weekly_total := 70368744177667 }

/-- The example week with that habit alone. -/
def bigTotalWeek : WeekData := { exampleWeek with habits := [bigTotalHabit] }

/-- The example habit under the name `<!--`. -/
def commentHabit : Habit := { exampleHabit with name := "<!--" }

/-- The example week with that habit alone. -/
def commentWeek : WeekData := { exampleWeek with habits := [commentHabit] }

/-- The example week with a single day whose text is `5`. -/
def numberDayWeek : WeekData := { exampleWeek with days := ["5"], daily_sums := [1] }

/-! # Theorems -/

/-! ## Supporting lemmas -/

theorem YearFromDay_spec (d : Int) :
    DayFromYear (YearFromDay d) ≤ d ∧ d < DayFromYear (YearFromDay d + 1) := by
  unfold YearFromDay
  simp only
  split_ifs with h1 h2
  · exact ⟨h1, by unfold DayFromYear at *; omega⟩
  · exact ⟨h2, by omega⟩
  · refine ⟨by unfold DayFromYear at *; omega, ?_⟩
    have e : 1970 + d * 10000 / 3652425 - 1 + 1 = 1970 + d * 10000 / 3652425 := by ring
    rw [e]; omega


theorem roundHalfEven_err (x : ℚ) : |(roundHalfEven x : ℚ) - x| ≤ 1 / 2 := by
  have h1 := Int.floor_le x
  have h2 := Int.lt_floor_add_one x
  unfold roundHalfEven
  split_ifs with a b c
  · rw [abs_le]; constructor <;> linarith
  · push_cast; rw [abs_le]; constructor <;> linarith
  · rw [abs_le]; constructor <;> linarith
  · push_cast; rw [abs_le]; constructor <;> linarith

theorem roundHalfEven_eq (x : ℚ) (m : Int) (h : |x - m| < 1 / 2) : roundHalfEven x = m := by
  rw [abs_lt] at h
  have h1 := Int.floor_le x
  have h2 := Int.lt_floor_add_one x
  have e := roundHalfEven_err x
  rw [abs_le] at e
  have : |((roundHalfEven x - m : Int) : ℚ)| < 1 := by
    push_cast; rw [abs_lt]; constructor <;> linarith
  have h3 : |roundHalfEven x - m| < 1 := by exact_mod_cast this
  have := Int.abs_lt_one_iff.mp h3
  omega

theorem roundHalfEven_tie (f : Int) (hf : f % 2 = 0) : roundHalfEven ((f : ℚ) + 1 / 2) = f := by
  have hfl : ⌊(f : ℚ) + 1 / 2⌋ = f := by
    rw [Int.floor_eq_iff]; constructor <;> norm_num
  unfold roundHalfEven
  rw [hfl]
  have e : (f : ℚ) + 1 / 2 - f = 1 / 2 := by ring
  rw [e]
  simp [hf]

theorem log_eq (x : ℚ) (k : Int) (hlo : (2 : ℚ) ^ k ≤ |x|) (hhi : |x| < (2 : ℚ) ^ (k + 1)) :
    Int.log 2 |x| = k := by
  have hpos : 0 < |x| := lt_of_lt_of_le (zpow_pos (by norm_num) k) hlo
  have a := (Int.zpow_le_iff_le_log (b := 2) (by norm_num) hpos).mp (by exact_mod_cast hlo)
  have b := (Int.lt_zpow_iff_log_lt (b := 2) (by norm_num) hpos).mp (by exact_mod_cast hhi)
  omega

theorem fl_eq_of (x : ℚ) (e m : Int) (hlo : (2 : ℚ) ^ (e + 52) ≤ |x|)
    (hhi : |x| < (2 : ℚ) ^ (e + 52 + 1)) (hm : |x / 2 ^ e - m| < 1 / 2) :
    fl x = m * 2 ^ e := by
  have hl := log_eq x (e + 52) hlo hhi
  have hx : x ≠ 0 := by
    intro h; rw [h] at hlo; simp at hlo
    exact absurd hlo (not_le.mpr (zpow_pos (by norm_num) _))
  unfold fl
  rw [if_neg hx, hl]
  have : e + 52 - 52 = e := by ring
  rw [this, roundHalfEven_eq _ m hm]

theorem fl_err (x : ℚ) : |fl x - x| ≤ |x| / 2 ^ 53 := by
  unfold fl
  split_ifs with h0
  · simp [h0]
  · have hpos : 0 < |x| := abs_pos.mpr h0
    set e := Int.log 2 |x| - 52 with he
    have hp : (0 : ℚ) < 2 ^ e := zpow_pos (by norm_num) e
    have hr := roundHalfEven_err (x / 2 ^ e)
    have hle : (2 : ℚ) ^ (Int.log 2 |x|) ≤ |x| := by
      have := Int.zpow_log_le_self (b := 2) (r := |x|) (by norm_num) hpos
      exact_mod_cast this
    have e1 : (roundHalfEven (x / 2 ^ e) : ℚ) * 2 ^ e - x =
        ((roundHalfEven (x / 2 ^ e) : ℚ) - x / 2 ^ e) * 2 ^ e := by
      field_simp
    rw [e1, abs_mul, abs_of_pos hp]
    have e2 : (2 : ℚ) ^ (Int.log 2 |x|) = 2 ^ e * 2 ^ (52 : Int) := by
      rw [← zpow_add₀ (by norm_num : (2 : ℚ) ≠ 0)]; congr 1; omega
    have e3 : (2 : ℚ) ^ (52 : Int) = 4503599627370496 := by norm_num
    rw [e2, e3] at hle
    have : |(roundHalfEven (x / 2 ^ e) : ℚ) - x / 2 ^ e| * 2 ^ e ≤ 1 / 2 * 2 ^ e :=
      mul_le_mul_of_nonneg_right hr (le_of_lt hp)
    have e4 : (2 : ℚ) ^ 53 = 9007199254740992 := by norm_num
    rw [e4]
    have : 1 / 2 * (2 : ℚ) ^ e ≤ |x| / 9007199254740992 := by
      rw [le_div_iff₀ (by norm_num)]
      linarith
    linarith

theorem fl_int (n : Int) (h : |n| < 2 ^ 53) : fl (n : ℚ) = n := by
  by_cases h0 : n = 0
  · rw [h0]; simp [fl]
  · have hq0 : (n : ℚ) ≠ 0 := by exact_mod_cast h0
    have hpos : (0 : ℚ) < |(n : ℚ)| := abs_pos.mpr hq0
    have hlt : |(n : ℚ)| < (2 : ℚ) ^ (53 : Int) := by
      have : ((|n| : Int) : ℚ) < ((2 ^ 53 : Int) : ℚ) := by exact_mod_cast h
      push_cast at this
      norm_num at this ⊢
      exact this
    have hlog : Int.log 2 |(n : ℚ)| < 53 :=
      (Int.lt_zpow_iff_log_lt (b := 2) (by norm_num) hpos).mp (by exact_mod_cast hlt)
    have hlog0 : 0 ≤ Int.log 2 |(n : ℚ)| := by
      rw [← Int.zpow_le_iff_le_log (b := 2) (by norm_num) hpos]
      have : (1 : Int) ≤ |n| := Int.one_le_abs h0
      have : ((1 : Int) : ℚ) ≤ ((|n| : Int) : ℚ) := by exact_mod_cast this
      rw [Int.cast_abs] at this
      simpa using this
    unfold fl
    rw [if_neg hq0]
    obtain ⟨k, hk⟩ : ∃ k : Nat, Int.log 2 |(n : ℚ)| - 52 = -(k : Int) :=
      ⟨(52 - Int.log 2 |(n : ℚ)|).toNat, by omega⟩
    rw [hk]
    have e1 : (n : ℚ) / 2 ^ (-(k : Int)) = ((n * 2 ^ k : Int) : ℚ) := by
      rw [zpow_neg, zpow_natCast]; push_cast; field_simp
    rw [e1]
    have e2 : roundHalfEven ((n * 2 ^ k : Int) : ℚ) = n * 2 ^ k :=
      roundHalfEven_eq _ _ (by simp)
    rw [e2, zpow_neg, zpow_natCast]
    push_cast
    field_simp


theorem mathRound_bounds (x : ℚ) :
    (mathRound x : ℚ) - 1 / 2 ≤ x ∧ x < mathRound x + 1 / 2 := by
  unfold mathRound
  have h1 := Int.floor_le (x + 1 / 2)
  have h2 := Int.lt_floor_add_one (x + 1 / 2)
  constructor <;> linarith

/-- The quotient `w / 7 * 100` stays at least 1/14 away from every half-integer. -/
theorem percent_margin (w p : Int) :
    (1 : ℚ) / 14 ≤ |(w : ℚ) / 7 * 100 - (p - 1 / 2)| := by
  have key : (1 : ℚ) ≤ |(200 * w - 14 * p + 7 : ℚ)| := by
    have hz : (200 * w - 14 * p + 7 : Int) ≠ 0 := by omega
    have := Int.one_le_abs hz
    exact_mod_cast this
  have e : (w : ℚ) / 7 * 100 - (p - 1 / 2) = (200 * w - 14 * p + 7 : ℚ) / 14 := by ring
  rw [e, abs_div]
  have : |(14 : ℚ)| = 14 := by norm_num
  rw [this]
  linarith [div_le_div_of_nonneg_right key (by norm_num : (0 : ℚ) ≤ 14)]

/-- Any evaluation of `w / 7 * 100` with an absolute error below 1/14 is rounded by
`Math.round` to the same integer as the exact quotient. -/
theorem mathRound_eq_of_close (w : Int) (x : ℚ) (hx : |x - (w : ℚ) / 7 * 100| < 1 / 14) :
    mathRound x = nearestPercent w := by
  have hb := mathRound_bounds ((w : ℚ) / 7 * 100)
  have hm1 := percent_margin w (nearestPercent w)
  have hm2 := percent_margin w (nearestPercent w + 1)
  unfold nearestPercent at *
  set p := mathRound ((w : ℚ) / 7 * 100) with hp
  set e := (w : ℚ) / 7 * 100 with he
  push_cast at hm2
  have a1 : (0 : ℚ) ≤ e - (p - 1 / 2) := by linarith
  have a2 : e - (p + 1 - 1 / 2) ≤ 0 := by linarith
  rw [abs_of_nonneg a1] at hm1
  rw [abs_of_nonpos a2] at hm2
  rw [abs_lt] at hx
  unfold mathRound
  rw [Int.floor_eq_iff]
  constructor <;> linarith

theorem nearestPercent_dist (w : Int) :
    |(w : ℚ) / 7 * 100 - nearestPercent w| < 1 / 2 := by
  have hb := mathRound_bounds ((w : ℚ) / 7 * 100)
  have hm1 := percent_margin w (nearestPercent w)
  unfold nearestPercent at *
  set p := mathRound ((w : ℚ) / 7 * 100) with hp
  set e := (w : ℚ) / 7 * 100 with he
  have a1 : (0 : ℚ) ≤ e - (p - 1 / 2) := by linarith
  rw [abs_of_nonneg a1] at hm1
  rw [abs_lt]
  constructor <;> linarith

theorem nearestPercent_eval (w p : Int) (h : 14 * p - 7 ≤ 200 * w ∧ 200 * w < 14 * p + 7) :
    nearestPercent w = p := by
  unfold nearestPercent mathRound
  rw [Int.floor_eq_iff]
  have h1 : ((14 * p - 7 : Int) : ℚ) ≤ ((200 * w : Int) : ℚ) := by exact_mod_cast h.1
  have h2 : ((200 * w : Int) : ℚ) < ((14 * p + 7 : Int) : ℚ) := by exact_mod_cast h.2
  push_cast at h1 h2
  constructor <;> linarith


/-- Whenever each of the two operations of `w / 7 * 100` is rounded with a relative
error of at most `2^-53` and `|w| ≤ 2^44`, `Math.round` yields the same integer as
on the exact quotient. -/
theorem rounding_robust (rnd : ℚ → ℚ)
    (hfl : ∀ x, |rnd x - x| ≤ |x| / 2 ^ 53) (w : Int) (hw : |w| ≤ 2 ^ 44) :
    mathRound (rnd (rnd ((w : ℚ) / 7) * 100)) = nearestPercent w := by
  apply mathRound_eq_of_close
  have hwq : |(w : ℚ)| ≤ 2 ^ 44 := by
    have : ((|w| : Int) : ℚ) ≤ ((2 ^ 44 : Int) : ℚ) := by exact_mod_cast hw
    push_cast at this
    simpa [Int.cast_abs] using this
  set q := rnd ((w : ℚ) / 7) with hq
  have e1 := hfl ((w : ℚ) / 7)
  have e2 := hfl (q * 100)
  rw [← hq] at e1
  have a7 : |(w : ℚ) / 7| = |(w : ℚ)| / 7 := by
    rw [abs_div]; norm_num
  rw [a7] at e1
  have hqabs : |q| ≤ |(w : ℚ)| / 7 + |(w : ℚ)| / 7 / 2 ^ 53 := by
    have := abs_sub_abs_le_abs_sub q ((w : ℚ) / 7)
    rw [a7] at this
    linarith
  have a100 : |q * 100| = |q| * 100 := by
    rw [abs_mul]; norm_num
  rw [a100] at e2
  have tri : |rnd (q * 100) - (w : ℚ) / 7 * 100| ≤
      |rnd (q * 100) - q * 100| + |q - (w : ℚ) / 7| * 100 := by
    have h := abs_add (rnd (q * 100) - q * 100) ((q - (w : ℚ) / 7) * 100)
    have e : rnd (q * 100) - q * 100 + (q - (w : ℚ) / 7) * 100 =
        rnd (q * 100) - (w : ℚ) / 7 * 100 := by ring
    rw [e] at h
    have m : |(q - (w : ℚ) / 7) * 100| = |q - (w : ℚ) / 7| * 100 := by
      rw [abs_mul]; norm_num
    rw [m] at h
    exact h
  have hw0 : 0 ≤ |(w : ℚ)| := abs_nonneg _
  have p53 : (2 : ℚ) ^ 53 = 9007199254740992 := by norm_num
  have p44 : (2 : ℚ) ^ 44 = 17592186044416 := by norm_num
  rw [p53] at e1 e2 hqabs
  rw [p44] at hwq
  have b1 : |q - (w : ℚ) / 7| * 100 ≤ |(w : ℚ)| / 7 / 9007199254740992 * 100 := by
    linarith
  have b2 : |rnd (q * 100) - q * 100| ≤
      (|(w : ℚ)| / 7 + |(w : ℚ)| / 7 / 9007199254740992) * 100 / 9007199254740992 := by
    have : |q| * 100 / 9007199254740992 ≤
        (|(w : ℚ)| / 7 + |(w : ℚ)| / 7 / 9007199254740992) * 100 / 9007199254740992 := by
      apply div_le_div_of_nonneg_right _ (by norm_num)
      linarith
    linarith
  have fin : |(w : ℚ)| / 7 / 9007199254740992 * 100 +
      (|(w : ℚ)| / 7 + |(w : ℚ)| / 7 / 9007199254740992) * 100 / 9007199254740992 <
        1 / 14 := by
    have : |(w : ℚ)| / 7 / 9007199254740992 * 100 +
        (|(w : ℚ)| / 7 + |(w : ℚ)| / 7 / 9007199254740992) * 100 / 9007199254740992 =
          |(w : ℚ)| * (100 / 7 / 9007199254740992 +
            (1 / 7 + 1 / 7 / 9007199254740992) * 100 / 9007199254740992) := by ring
    rw [this]
    have c : (0 : ℚ) ≤ 100 / 7 / 9007199254740992 +
        (1 / 7 + 1 / 7 / 9007199254740992) * 100 / 9007199254740992 := by norm_num
    calc |(w : ℚ)| * (100 / 7 / 9007199254740992 +
            (1 / 7 + 1 / 7 / 9007199254740992) * 100 / 9007199254740992)
        ≤ 17592186044416 * (100 / 7 / 9007199254740992 +
            (1 / 7 + 1 / 7 / 9007199254740992) * 100 / 9007199254740992) :=
          mul_le_mul_of_nonneg_right hwq c
      _ < 1 / 14 := by norm_num
  linarith


theorem toDouble_of_lt (x : ℚ) (h : |x| < 2 ^ (64 : Nat)) : toDouble x = some (fl x) := by
  unfold toDouble
  rw [if_neg]
  have e := fl_err x
  have h1 : |fl x| ≤ |x| + |x| / 2 ^ 53 := by
    have := abs_sub_abs_le_abs_sub (fl x) x
    linarith
  have h2 : |x| / 2 ^ 53 ≤ |x| := by
    apply div_le_self (abs_nonneg x); norm_num
  have h3 : (2 : ℚ) ^ (64 : Nat) + 2 ^ (64 : Nat) < 2 ^ (1024 : Nat) := by norm_num
  linarith

theorem fl_abs_le (x : ℚ) : |fl x| ≤ 2 * |x| := by
  have e := fl_err x
  have := abs_sub_abs_le_abs_sub (fl x) x
  have h2 : |x| / 2 ^ 53 ≤ |x| := by
    apply div_le_self (abs_nonneg x); norm_num
  linarith

theorem ev_q : fl ((70368744177667 : ℚ) / 7) = 5146971002709358 / 512 := by
  have h := fl_eq_of ((70368744177667 : ℚ) / 7) (-9) 5146971002709358
    (by rw [abs_of_pos (by norm_num)]; norm_num)
    (by rw [abs_of_pos (by norm_num)]; norm_num)
    (by rw [abs_lt]; norm_num)
  rw [h]; norm_num

theorem ev_p : fl ((5146971002709358 : ℚ) / 512 * 100) = 8042142191733372 / 8 := by
  have h := fl_eq_of ((5146971002709358 : ℚ) / 512 * 100) (-3) 8042142191733372
    (by rw [abs_of_pos (by norm_num)]; norm_num)
    (by rw [abs_of_pos (by norm_num)]; norm_num)
    (by rw [abs_lt]; norm_num)
  rw [h]; norm_num

theorem ev_t1 : toDouble (((70368744177667 : Int) : ℚ) / 7) =
    some (5146971002709358 / 512) := by
  rw [toDouble_of_lt _ (by rw [abs_of_pos (by norm_num)]; norm_num)]
  push_cast
  rw [ev_q]

theorem ev_t2 : toDouble ((5146971002709358 : ℚ) / 512 * 100) =
    some (8042142191733372 / 8) := by
  rw [toDouble_of_lt _ (by rw [abs_of_pos (by norm_num)]; norm_num), ev_p]

theorem ev_r : mathRound ((8042142191733372 : ℚ) / 8) = 1005267773966672 := by
  unfold mathRound
  rw [Int.floor_eq_iff]
  norm_num


/-- For `|w| ≤ 2^44` the displayed percentage is the integer nearest to `100 * w / 7`. -/
theorem percentOfWeek_eq (w : Int) (hw : |w| ≤ 2 ^ 44) :
    percentOfWeek w = some (nearestPercent w) := by
  have hwq : |(w : ℚ)| ≤ 2 ^ 44 := by
    have : ((|w| : Int) : ℚ) ≤ ((2 ^ 44 : Int) : ℚ) := by exact_mod_cast hw
    push_cast at this
    exact this
  have p44 : (2 : ℚ) ^ 44 = 17592186044416 := by norm_num
  have p64 : (2 : ℚ) ^ (64 : Nat) = 18446744073709551616 := by norm_num
  rw [p44] at hwq
  have a7 : |(w : ℚ) / 7| = |(w : ℚ)| / 7 := by
    rw [abs_div]; norm_num
  have h1 : |(w : ℚ) / 7| < 2 ^ (64 : Nat) := by
    rw [a7, p64]; linarith [abs_nonneg (w : ℚ)]
  have hq := fl_abs_le ((w : ℚ) / 7)
  have h2 : |fl ((w : ℚ) / 7) * 100| < 2 ^ (64 : Nat) := by
    rw [abs_mul, p64]
    have : |(100 : ℚ)| = 100 := by norm_num
    rw [this, a7] at *
    linarith [abs_nonneg (w : ℚ)]
  unfold percentOfWeek
  rw [toDouble_of_lt _ h1, Option.some_bind, toDouble_of_lt _ h2, Option.map_some']
  congr 1
  exact rounding_robust fl fl_err w hw

theorem percentOfWeek_small :
    percentOfWeek 10 = some 143 ∧ percentOfWeek 1 = some 14 := by
  constructor
  · rw [percentOfWeek_eq 10 (by decide), nearestPercent_eval 10 143 (by decide)]
  · rw [percentOfWeek_eq 1 (by decide), nearestPercent_eval 1 14 (by decide)]


theorem renderTable_header (data : WeekData) (page : Page) :
    (renderTable data page).header =
      HeaderCell.habit :: data.days.map HeaderCell.day ++ [HeaderCell.weeklyTotal] := rfl

theorem renderTable_modelled (data : WeekData) (page : Page) :
    (renderTable data page).modelled = (tableMarkup data).modelled := rfl

theorem installed_eq (r : BodyRow) :
    RowNode.mapCells (fun n => { n with handlers := n.handlers ++ [Handler.toggleCell] })
        (RowNode.mapCells (fun n => { n with handlers := [] }) (BodyRow.toNode r)) =
      installed r := by
  cases r <;> simp [installed, BodyRow.toNode, RowNode.mapCells, Function.comp_def]

theorem renderTable_body (data : WeekData) (page : Page) :
    (renderTable data page).body = (tableMarkup data).body.map installed := by
  simp only [renderTable, Page.onClick, Page.offClick, Page.mapCells, Page.setTableHtml,
    List.map_map]
  apply List.map_congr_left
  intro r _
  exact installed_eq r

theorem renderTable_outside (data : WeekData) (page : Page) :
    (renderTable data page).outside =
      page.outside.map fun n => ⟨n.cell, [Handler.toggleCell]⟩ := by
  simp [renderTable, Page.onClick, Page.offClick, Page.mapCells, Page.setTableHtml,
    Function.comp_def]

theorem renderedRow_eq (days : List String) (h : Habit) :
    renderedRow days h =
      RowNode.habitRow h.id h.name (days.map fun d => ⟨dayCell h d, [Handler.toggleCell]⟩)
        h.weekly_total (percentOfWeek h.weekly_total) := by
  simp [renderedRow, installed, habitRow, BodyRow.toNode, RowNode.mapCells,
    Function.comp_def]

/-- With plain names in rows `0..i` and safe day texts, row `i` is parsed in full. -/
theorem parseRows_get (days : List String) (hd : days.all attrSafe = true) :
    ∀ (habits : List Habit) (i : Nat) (h : Habit),
      (∀ k h2, k ≤ i → habits[k]? = some h2 → scanText h2.name = TextScan.plain) →
      habits[i]? = some h → (parseRows days habits).1[i]? = some (habitRow days h) := by
  intro habits
  induction habits with
  | nil => intro i h _ hi; simp at hi
  | cons a as ih =>
    intro i h hn hi
    have ha : scanText a.name = TextScan.plain := hn 0 a (Nat.zero_le _) (by simp)
    have e : parseRows days (a :: as) =
        ((habitRow days a) :: (parseRows days as).1, (parseRows days as).2) := by
      simp only [parseRows, ha, hd, if_true]
    rw [e]
    cases i with
    | zero =>
      simp only [List.getElem?_cons_zero, Option.some.injEq] at hi ⊢
      rw [hi]
    | succ n =>
      simp only [List.getElem?_cons_succ] at hi ⊢
      apply ih n h _ hi
      intro k h2 hk hk2
      exact hn (k + 1) h2 (Nat.succ_le_succ hk) (by simpa using hk2)

theorem renderTable_row (data : WeekData) (page : Page) (i : Nat) (h : Habit)
    (hi : data.habits[i]? = some h) (hn : PlainNamesUpTo data i) (hd : SafeDays data) :
    (renderTable data page).body[i]? = some (renderedRow data.days h) := by
  have hne : ¬ data.habits.length = 0 := by
    intro h0
    rw [List.length_eq_zero] at h0
    rw [h0] at hi
    simp at hi
  have hall : data.days.all attrSafe = true := List.all_eq_true.mpr hd
  rw [renderTable_body]
  simp only [tableMarkup, if_neg hne, List.getElem?_map]
  rw [parseRows_get data.days hall data.habits i h hn hi]
  rfl

theorem plainNames_upTo (data : WeekData) (hn : PlainNames data) (i : Nat) :
    PlainNamesUpTo data i := by
  intro k h _ hk
  exact hn h (List.getElem?_mem hk)

/-- With plain names and safe day texts the parse stays within the cases followed. -/
theorem parseRows_modelled (days : List String) (hd : days.all attrSafe = true) :
    ∀ habits : List Habit, (∀ h ∈ habits, scanText h.name = TextScan.plain) →
      (parseRows days habits).2 = true := by
  intro habits
  induction habits with
  | nil => intro _; rfl
  | cons a as ih =>
    intro hn
    have ha : scanText a.name = TextScan.plain := hn a (List.mem_cons_self _ _)
    have e : parseRows days (a :: as) =
        ((habitRow days a) :: (parseRows days as).1, (parseRows days as).2) := by
      simp only [parseRows, ha, hd, if_true]
    rw [e]
    exact ih fun h hh => hn h (List.mem_cons_of_mem _ hh)

theorem renderTable_modelled_plain (data : WeekData) (page : Page)
    (hn : PlainNames data) (hd : SafeDays data) :
    (renderTable data page).modelled = true := by
  rw [renderTable_modelled]
  have hall : data.days.all attrSafe = true := List.all_eq_true.mpr hd
  simp only [tableMarkup]
  split_ifs
  · rfl
  · exact parseRows_modelled data.days hall data.habits hn

/-! ## The claims -/

/-- C1 (amended): for every habit `h` (row `i`) of a week payload whose habit names
are plain text (no `<`, `&`, NUL or CR) and whose day texts are safe as attribute
values (no `"`, `&`, NUL or CR), and whose integer `weekly_total` has magnitude at
most `2^44`: the table is parsed as written, and the trailing cell of the row shows `weekly_total` and the percentage `Math.round(weekly_total / 7 * 100)`,
which is the integer nearest to `100 * weekly_total / 7` (closer than 1/2, and
strictly closer than any other integer); it is not clamped (above 100 as soon as
the total exceeds 7); a total of 10 shows 143 and a total of 1 shows 14. -/
theorem C1_percentage_is_nearest_integer (data : WeekData) (page : Page) (i : Nat)
    (h : Habit) (hi : data.habits[i]? = some h) (hn : PlainNames data)
    (hd : SafeDays data) (hw : |h.weekly_total| ≤ 2 ^ 44) :
    (renderTable data page).modelled = true ∧
      (∃ cells, (renderTable data page).body[i]? =
        some (RowNode.habitRow h.id h.name cells h.weekly_total
          (some (nearestPercent h.weekly_total)))) ∧
      percentOfWeek h.weekly_total = some (nearestPercent h.weekly_total) ∧
      |100 * (h.weekly_total : ℚ) / 7 - nearestPercent h.weekly_total| < 1 / 2 ∧
      (∀ k : Int, k ≠ nearestPercent h.weekly_total →
        |100 * (h.weekly_total : ℚ) / 7 - nearestPercent h.weekly_total| <
          |100 * (h.weekly_total : ℚ) / 7 - k|) ∧
      (7 < h.weekly_total → 100 < nearestPercent h.weekly_total) ∧
      percentOfWeek 10 = some 143 ∧ percentOfWeek 1 = some 14 := by
  have hd2 := nearestPercent_dist h.weekly_total
  have hp := percentOfWeek_eq h.weekly_total hw
  have e : 100 * (h.weekly_total : ℚ) / 7 = (h.weekly_total : ℚ) / 7 * 100 := by ring
  refine ⟨renderTable_modelled_plain data page hn hd,
    ⟨data.days.map fun d => ⟨dayCell h d, [Handler.toggleCell]⟩, ?_⟩, hp, ?_, ?_, ?_,
    percentOfWeek_small.1, percentOfWeek_small.2⟩
  · rw [renderTable_row data page i h hi (plainNames_upTo data hn i) hd, renderedRow_eq, hp]
  · rw [e]; exact hd2
  · intro k hk
    rw [e]
    have hk1 : (1 : ℚ) ≤ |((nearestPercent h.weekly_total - k : Int) : ℚ)| := by
      have := Int.one_le_abs (sub_ne_zero.mpr (Ne.symm hk))
      exact_mod_cast this
    push_cast at hk1
    have tri : |(nearestPercent h.weekly_total : ℚ) - k| ≤
        |(h.weekly_total : ℚ) / 7 * 100 - k| +
          |(h.weekly_total : ℚ) / 7 * 100 - nearestPercent h.weekly_total| := by
      have := abs_sub_le ((nearestPercent h.weekly_total : ℚ))
        ((h.weekly_total : ℚ) / 7 * 100) (k : ℚ)
      rw [abs_sub_comm ((nearestPercent h.weekly_total : ℚ))
        ((h.weekly_total : ℚ) / 7 * 100)] at this
      linarith
    linarith
  · intro h7
    rw [abs_lt] at hd2
    have h1 : (8 : ℚ) ≤ (h.weekly_total : ℚ) := by
      exact_mod_cast (by omega : (8 : Int) ≤ h.weekly_total)
    have h2 : (100 : ℚ) < (nearestPercent h.weekly_total : ℚ) := by linarith
    exact_mod_cast h2

theorem exampleWeek_plain : PlainNames exampleWeek ∧ SafeDays exampleWeek := by
  constructor
  · intro h hh
    have e : exampleWeek.habits = [exampleHabit] := rfl
    rw [e, List.mem_singleton] at hh
    rw [hh]
    decide
  · unfold SafeDays
    decide

/-- Witness of C1 on the example week of the specification: the row of "Read" shows
total 1 and 14 percent. -/
theorem C1_percentage_witness :
    (exampleWeek.habits[0]? = some exampleHabit ∧ |exampleHabit.weekly_total| ≤ 2 ^ 44) ∧
      (renderTable exampleWeek emptyPage).modelled = true ∧
      (∃ cells, (renderTable exampleWeek emptyPage).body[0]? =
        some (RowNode.habitRow exampleHabit.id exampleHabit.name cells
          exampleHabit.weekly_total (some (nearestPercent exampleHabit.weekly_total)))) ∧
      percentOfWeek 1 = some 14 :=
  ⟨⟨rfl, by decide⟩,
    (C1_percentage_is_nearest_integer exampleWeek emptyPage 0 exampleHabit rfl
      exampleWeek_plain.1 exampleWeek_plain.2 (by decide)).1,
    (C1_percentage_is_nearest_integer exampleWeek emptyPage 0 exampleHabit rfl
      exampleWeek_plain.1 exampleWeek_plain.2 (by decide)).2.1,
    (C1_percentage_is_nearest_integer exampleWeek emptyPage 0 exampleHabit rfl
      exampleWeek_plain.1 exampleWeek_plain.2 (by decide)).2.2.2.2.2.2.2⟩

theorem percent_float_eval :
    percentOfWeek 70368744177667 = some 1005267773966672 ∧
      nearestPercent 70368744177667 = 1005267773966671 := by
  constructor
  · unfold percentOfWeek
    rw [ev_t1, Option.some_bind, ev_t2, Option.map_some', ev_r]
  · exact nearestPercent_eval _ _ (by decide)

/-- Counterexample to C1 as stated: for the integer total 70368744177667 (the habit
name and the days being plain) the trailing cell shows 1005267773966672, while the
integer nearest to `100 * w / 7` is 1005267773966671: the quotient and the product
are rounded to binary64 before `Math.round`. -/
theorem C1_counterexample_large_total :
    (renderTable bigTotalWeek emptyPage).modelled = true ∧
      (∃ cells, (renderTable bigTotalWeek emptyPage).body[0]? =
        some (RowNode.habitRow 1 "Read" cells 70368744177667 (some 1005267773966672))) ∧
      nearestPercent 70368744177667 = 1005267773966671 := by
  have hn : PlainNamesUpTo bigTotalWeek 0 := by
    intro k h hk hget
    have hk0 : k = 0 := Nat.le_zero.mp hk
    subst hk0
    have e : bigTotalWeek.habits[0]? = some bigTotalHabit := rfl
    rw [e] at hget
    rw [← Option.some.inj hget]
    decide
  have hd : SafeDays bigTotalWeek := exampleWeek_plain.2
  have hw : percentOfWeek bigTotalHabit.weekly_total = some 1005267773966672 :=
    percent_float_eval.1
  refine ⟨by decide, ⟨bigTotalWeek.days.map fun d =>
    ⟨dayCell bigTotalHabit d, [Handler.toggleCell]⟩, ?_⟩, percent_float_eval.2⟩
  rw [renderTable_row bigTotalWeek emptyPage 0 bigTotalHabit rfl hn hd, renderedRow_eq, hw]
  rfl

theorem foldl_max_spec (xs : List Int) (x : Int) :
    xs.foldl max x ∈ x :: xs ∧ ∀ y ∈ x :: xs, y ≤ xs.foldl max x := by
  induction xs generalizing x with
  | nil => simp
  | cons a as ih =>
    rw [List.foldl_cons]
    obtain ⟨hm, hle⟩ := ih (max x a)
    constructor
    · rcases List.mem_cons.mp hm with h | h
      · rcases max_choice x a with hx | ha
        · rw [h, hx]; exact List.mem_cons_self _ _
        · rw [h, ha]; exact List.mem_cons_of_mem _ (List.mem_cons_self _ _)
      · exact List.mem_cons_of_mem _ (List.mem_cons_of_mem _ h)
    · intro y hy
      have hmax := hle (max x a) (List.mem_cons_self _ _)
      rcases List.mem_cons.mp hy with h | h
      · rw [h]; exact le_trans (le_max_left x a) hmax
      · rcases List.mem_cons.mp h with h | h
        · rw [h]; exact le_trans (le_max_right x a) hmax
        · exact hle y (List.mem_cons_of_mem _ h)

theorem fl_pow53 : fl ((9007199254740992 : ℚ)) = 9007199254740992 := by
  have h := fl_eq_of (9007199254740992 : ℚ) 1 4503599627370496
    (by rw [abs_of_pos (by norm_num)]; norm_num)
    (by rw [abs_of_pos (by norm_num)]; norm_num)
    (by rw [abs_lt]; norm_num)
  rw [h]; norm_num

/-- Adding 1 to a safe integer is exact. -/
theorem fl_succ_safe (m : Int) (h : |m| < 2 ^ 53) : fl ((m : ℚ) + 1) = (m : ℚ) + 1 := by
  have hb := abs_lt.mp h
  by_cases hc : m + 1 = 2 ^ 53
  · have e : (m : ℚ) + 1 = 9007199254740992 := by
      have : ((m + 1 : Int) : ℚ) = ((2 ^ 53 : Int) : ℚ) := by rw [hc]
      push_cast at this
      rw [this]
    rw [e, fl_pow53]
  · have h2 : |m + 1| < 2 ^ 53 := by
      rw [abs_lt]; constructor <;> omega
    have := fl_int (m + 1) h2
    push_cast at this
    exact this

/-- The sum `2^53 + 1` is a tie between two binary64 numbers and rounds to `2^53`. -/
theorem fl_tie53 : fl ((9007199254740992 : ℚ) + 1) = 9007199254740992 := by
  have hl := log_eq ((9007199254740992 : ℚ) + 1) 53
    (by rw [abs_of_pos (by norm_num)]; norm_num)
    (by rw [abs_of_pos (by norm_num)]; norm_num)
  have hx : (9007199254740992 : ℚ) + 1 ≠ 0 := by norm_num
  unfold fl
  rw [if_neg hx, hl]
  have e : ((9007199254740992 : ℚ) + 1) / 2 ^ ((53 : Int) - 52) =
      ((4503599627370496 : Int) : ℚ) + 1 / 2 := by norm_num
  rw [e, roundHalfEven_tie _ (by decide)]
  norm_num

theorem suggestedMax_cons (argLimit : Nat) (a : Int) (as : List Int)
    (hlen : (a :: as).length ≤ argLimit) :
    suggestedMax argLimit (a :: as) = .ok (max 5 (fl (((as.foldl max a : Int) : ℚ) + 1))) := by
  unfold suggestedMax mathMaxSpread
  rw [if_neg (by omega)]

theorem renderChart_ok (argLimit : Nat) (days : List String) (sums : List Int) (mx : ℚ)
    (h : suggestedMax argLimit sums = .ok mx) :
    ∃ cfg, renderChart argLimit days sums = .ok cfg ∧ cfg.suggestedMax = mx ∧
      cfg.data = sums ∧ cfg.beginAtZero = true := by
  unfold renderChart
  rw [h]
  exact ⟨_, rfl, rfl, rfl, rfl⟩

/-- C2 (amended): for every non-empty list of daily sums that are safe integers
(magnitude below `2^53`) and that is short enough for the engine to spread as call
arguments, the Y-axis upper bound that `renderChart` passes to the chart is
`max(5, m + 1)` where `m` is the greatest of the sums; it is at least 5 and
strictly above every sum; the sums `[0,1,0,2,0,0,0]` give 5 and
`[0,8,0,0,0,0,0]` give 9. -/
theorem C2_chart_axis_upper_bound (argLimit : Nat) (days : List String) (sums : List Int)
    (hne : sums ≠ []) (hlen : sums.length ≤ argLimit) (hsafe : ∀ x ∈ sums, |x| < 2 ^ 53) :
    ∃ cfg, renderChart argLimit days sums = .ok cfg ∧
      (∃ m ∈ sums, (∀ x ∈ sums, x ≤ m) ∧ cfg.suggestedMax = max 5 ((m : ℚ) + 1)) ∧
      5 ≤ cfg.suggestedMax ∧
      (∀ x ∈ sums, (x : ℚ) < cfg.suggestedMax) ∧
      (7 ≤ argLimit →
        (renderChart argLimit days [0, 1, 0, 2, 0, 0, 0]).map ChartConfig.suggestedMax = .ok 5 ∧
        (renderChart argLimit days [0, 8, 0, 0, 0, 0, 0]).map ChartConfig.suggestedMax =
          .ok 9) := by
  cases sums with
  | nil => exact absurd rfl hne
  | cons a as =>
    obtain ⟨hm, hle⟩ := foldl_max_spec as a
    have hs := suggestedMax_cons argLimit a as hlen
    rw [fl_succ_safe _ (hsafe _ hm)] at hs
    obtain ⟨cfg, hc, hmx, _, _⟩ := renderChart_ok argLimit days (a :: as) _ hs
    refine ⟨cfg, hc, ⟨as.foldl max a, hm, hle, hmx⟩, ?_, ?_, ?_⟩
    · rw [hmx]; exact le_max_left _ _
    · intro x hx
      rw [hmx]
      have h1 : (x : ℚ) ≤ ((as.foldl max a : Int) : ℚ) := by exact_mod_cast hle x hx
      have h2 : ((as.foldl max a : Int) : ℚ) + 1 ≤ max 5 (((as.foldl max a : Int) : ℚ) + 1) :=
        le_max_right _ _
      linarith
    · intro h7
      have s1 := suggestedMax_cons argLimit 0 [1, 0, 2, 0, 0, 0] (by simpa using h7)
      have s2 := suggestedMax_cons argLimit 0 [8, 0, 0, 0, 0, 0] (by simpa using h7)
      have f1 : ([1, 0, 2, 0, 0, 0] : List Int).foldl max 0 = 2 := by decide
      have f2 : ([8, 0, 0, 0, 0, 0] : List Int).foldl max 0 = 8 := by decide
      rw [f1, fl_succ_safe 2 (by decide)] at s1
      rw [f2, fl_succ_safe 8 (by decide)] at s2
      obtain ⟨c1, hc1, hm1, _, _⟩ := renderChart_ok argLimit days _ _ s1
      obtain ⟨c2, hc2, hm2, _, _⟩ := renderChart_ok argLimit days _ _ s2
      rw [hc1, hc2]
      simp only [Except.map, hm1, hm2]
      constructor
      · congr 1; norm_num
      · congr 1; norm_num

/-- Witness of C2 on the daily sums of the example week: the bound is 5. -/
theorem C2_chart_axis_witness :
    (exampleWeek.daily_sums ≠ [] ∧ exampleWeek.daily_sums.length ≤ 65536 ∧
        ∀ x ∈ exampleWeek.daily_sums, |x| < 2 ^ 53) ∧
      ∃ cfg, renderChart 65536 exampleWeek.days exampleWeek.daily_sums = .ok cfg ∧
        5 ≤ cfg.suggestedMax ∧
        ∀ x ∈ exampleWeek.daily_sums, (x : ℚ) < cfg.suggestedMax := by
  have h1 : exampleWeek.daily_sums ≠ [] := by decide
  have h2 : exampleWeek.daily_sums.length ≤ 65536 := by decide
  have h3 : ∀ x ∈ exampleWeek.daily_sums, |x| < 2 ^ 53 := by decide
  obtain ⟨cfg, hc, _, h5, hlt, _⟩ :=
    C2_chart_axis_upper_bound 65536 exampleWeek.days exampleWeek.daily_sums h1 h2 h3
  exact ⟨⟨h1, h2, h3⟩, cfg, hc, h5, hlt⟩

/-- Counterexample to C2 as stated: for the single sum `2^53` the bound passed to
the chart is `2^53` itself, which is neither `max(5, m + 1)` nor strictly above the
sum (the addition is rounded to binary64); and a list longer than the engine
accepts as call arguments makes the spread throw, so no bound is passed at all. -/
theorem C2_counterexample_large_sum :
    (∃ cfg, renderChart 65536 [] [9007199254740992] = .ok cfg ∧
        cfg.suggestedMax = 9007199254740992 ∧
        ¬ (((9007199254740992 : Int) : ℚ) < cfg.suggestedMax) ∧
        cfg.suggestedMax ≠ max 5 (((9007199254740992 : Int) : ℚ) + 1)) ∧
      ∀ argLimit : Nat,
        renderChart argLimit [] (List.replicate (argLimit + 1) 0) = .error .rangeError := by
  constructor
  · have hs := suggestedMax_cons 65536 9007199254740992 [] (by decide)
    have e : (([] : List Int).foldl max 9007199254740992 : Int) = 9007199254740992 := rfl
    rw [e] at hs
    have e2 : (((9007199254740992 : Int) : ℚ) + 1) = (9007199254740992 : ℚ) + 1 := by
      norm_num
    rw [e2, fl_tie53] at hs
    have e3 : max (5 : ℚ) 9007199254740992 = 9007199254740992 := by norm_num
    rw [e3] at hs
    obtain ⟨cfg, hc, hmx, _, _⟩ := renderChart_ok 65536 [] _ _ hs
    refine ⟨cfg, hc, hmx, ?_, ?_⟩
    · rw [hmx]; norm_num
    · rw [hmx]; norm_num
  · intro argLimit
    unfold renderChart suggestedMax mathMaxSpread
    rw [if_pos (by simp)]


theorem renderTable_cellAt (data : WeekData) (page : Page) (i j : Nat) (h : Habit)
    (d : String) (hi : data.habits[i]? = some h) (hj : data.days[j]? = some d)
    (hn : PlainNamesUpTo data i) (hd : SafeDays data) :
    (renderTable data page).cellAt i j = some ⟨dayCell h d, [Handler.toggleCell]⟩ := by
  unfold Page.cellAt
  rw [renderTable_row data page i h hi hn hd, renderedRow_eq]
  simp [RowNode.cells, List.getElem?_map, hj]

theorem dayCell_on_iff (h : Habit) (d : String) :
    "table-success" ∈ (dayCell h d).classes ↔ 0 < (h.entries d).getD 0 := by
  unfold dayCell entryVal
  cases hd : h.entries d with
  | none => simp
  | some n =>
    by_cases hn : n = 0
    · simp [hn]
    · by_cases hp : 0 < n
      · simp [hn, hp]
      · simp [hn, hp]

theorem dayCell_text (h : Habit) (d : String) :
    (dayCell h d).buttonText = if 0 < (h.entries d).getD 0 then "✓" else "" := by
  unfold dayCell entryVal
  cases hd : h.entries d with
  | none => simp
  | some n =>
    by_cases hn : n = 0
    · simp [hn]
    · simp [hn]

/-- C3 (amended): for every week payload whose habit names are plain text (no `<`,
`&`, NUL or CR) and whose day texts are safe as attribute values (no `"`, `&`, NUL
or CR), every habit `h` (row `i`) and every day `d` (column `j`): the table is
parsed as written, and the cell `renderTable` produces at row `i`, column `j`
carries the identity `(h.id, d)`, has the class `table-success` exactly when
`h.entries[d] > 0` (a missing key counting as 0), and its button shows the check
mark in that case and the empty text otherwise. -/
theorem C3_cell_marked_iff_entry_positive (data : WeekData) (page : Page) (i j : Nat)
    (h : Habit) (d : String) (hi : data.habits[i]? = some h) (hj : data.days[j]? = some d)
    (hn : PlainNames data) (hd : SafeDays data) :
    (renderTable data page).modelled = true ∧
    ∃ node, (renderTable data page).cellAt i j = some node ∧
      node.cell.dataHabit = h.id ∧ node.cell.dataDate = d ∧
      ("table-success" ∈ node.cell.classes ↔ 0 < (h.entries d).getD 0) ∧
      (0 < (h.entries d).getD 0 → node.cell.buttonText = "✓") ∧
      (¬ 0 < (h.entries d).getD 0 →
        "table-success" ∉ node.cell.classes ∧ node.cell.buttonText = "") := by
  refine ⟨renderTable_modelled_plain data page hn hd, _,
    renderTable_cellAt data page i j h d hi hj (plainNames_upTo data hn i) hd, rfl, rfl,
    dayCell_on_iff h d, ?_, ?_⟩
  · intro hp
    show (dayCell h d).buttonText = "✓"
    rw [dayCell_text, if_pos hp]
  · intro hp
    refine ⟨fun hc => hp ((dayCell_on_iff h d).mp hc), ?_⟩
    show (dayCell h d).buttonText = ""
    rw [dayCell_text, if_neg hp]

/-- Witness of C3 on the example week: the first day of "Read" is marked and checked. -/
theorem C3_cell_marked_witness :
    (exampleWeek.habits[0]? = some exampleHabit ∧
        exampleWeek.days[0]? = some "2024-01-01" ∧
        PlainNames exampleWeek ∧ SafeDays exampleWeek) ∧
      (renderTable exampleWeek emptyPage).modelled = true ∧
      ∃ node, (renderTable exampleWeek emptyPage).cellAt 0 0 = some node ∧
        node.cell.dataHabit = exampleHabit.id ∧ node.cell.dataDate = "2024-01-01" ∧
        ("table-success" ∈ node.cell.classes ↔
          0 < (exampleHabit.entries "2024-01-01").getD 0) ∧
        (0 < (exampleHabit.entries "2024-01-01").getD 0 → node.cell.buttonText = "✓") ∧
        (¬ 0 < (exampleHabit.entries "2024-01-01").getD 0 →
          "table-success" ∉ node.cell.classes ∧ node.cell.buttonText = "") :=
  ⟨⟨rfl, rfl, exampleWeek_plain.1, exampleWeek_plain.2⟩,
    C3_cell_marked_iff_entry_positive exampleWeek emptyPage 0 0 exampleHabit
      "2024-01-01" rfl rfl exampleWeek_plain.1 exampleWeek_plain.2⟩

/-- Counterexample to C3 as stated: the example week with its habit named `<!--`.
The name is placed unescaped into the markup and opens a comment that swallows the
rest of the table, so the row ends inside its name cell: there is no cell at row 0,
column 0, although the entry of that day is positive. -/
theorem C3_counterexample_comment_name :
    (commentWeek.habits[0]? = some commentHabit ∧
        commentWeek.days[0]? = some "2024-01-01" ∧
        0 < (commentHabit.entries "2024-01-01").getD 0) ∧
      (renderTable commentWeek emptyPage).modelled = true ∧
      (renderTable commentWeek emptyPage).body = [RowNode.nameOnly 1 "<!--"] ∧
      (renderTable commentWeek emptyPage).cellAt 0 0 = none := by
  refine ⟨⟨rfl, rfl, by decide⟩, by decide, ?_, ?_⟩
  · rw [renderTable_body]
    have e : (tableMarkup commentWeek).body = [BodyRow.nameOnly 1 "<!--"] := by decide
    rw [e]
    rfl
  · unfold Page.cellAt
    rw [renderTable_body]
    have e : (tableMarkup commentWeek).body = [BodyRow.nameOnly 1 "<!--"] := by decide
    rw [e]
    rfl

/-- C4: for every week payload whose habits list is empty, the table body that
`renderTable` produces is exactly one row, that row is the single cell with the text
"No habits found", and its column span is the number of header columns, which is
`days.length + 2` (Habit, one per day, Weekly Total). -/
theorem C4_empty_habits_placeholder_row (data : WeekData) (page : Page)
    (he : data.habits = []) :
    (renderTable data page).body =
        [RowNode.placeholder ((renderTable data page).header.length : Int)
          "No habits found"] ∧
      (renderTable data page).body.length = 1 ∧
      (renderTable data page).header.length = data.days.length + 2 ∧
      (renderTable data page).header =
        HeaderCell.habit :: data.days.map HeaderCell.day ++ [HeaderCell.weeklyTotal] := by
  have hl : (renderTable data page).header.length = data.days.length + 2 := by
    rw [renderTable_header]; simp
  have hb : (renderTable data page).body =
      [RowNode.placeholder ((data.days.length : Int) + 2) "No habits found"] := by
    rw [renderTable_body]
    simp only [tableMarkup, he, List.length_nil, if_true, List.map_cons, List.map_nil]
    rfl
  refine ⟨?_, ?_, hl, renderTable_header data page⟩
  · rw [hb, hl]; push_cast; rfl
  · rw [hb]; rfl

/-- Witness of C4 on a week without habits: one placeholder row spanning 9 columns. -/
theorem C4_empty_habits_witness :
    emptyWeek.habits = [] ∧
      (renderTable emptyWeek emptyPage).body = [RowNode.placeholder 9 "No habits found"] ∧
      (renderTable emptyWeek emptyPage).header.length = 9 :=
  ⟨rfl, (C4_empty_habits_placeholder_row emptyWeek emptyPage rfl).1,
    (C4_empty_habits_placeholder_row emptyWeek emptyPage rfl).2.2.1⟩

theorem click_rendered (h : Habit) (d : String) (hq : jqData d = DataValue.text d) :
    click ⟨dayCell h d, [Handler.toggleCell]⟩ =
      [toggleRequest h.id d (if 0 < (h.entries d).getD 0 then 0 else 1)] := by
  have hon := dayCell_on_iff h d
  have hdd : (dayCell h d).dataDate = d := rfl
  have hdh : (dayCell h d).dataHabit = h.id := rfl
  by_cases hp : 0 < (h.entries d).getD 0
  · have hc : "table-success" ∈ (dayCell h d).classes := hon.mpr hp
    simp [click, Handler.run, toggleCell, toggleRequest, hp, hc, hdd, hdh, hq]
  · have hc : "table-success" ∉ (dayCell h d).classes := fun hc => hp (hon.mp hc)
    simp [click, Handler.run, toggleCell, toggleRequest, hp, hc, hdd, hdh, hq]

/-- C5 (amended): for every week payload whose habit names are plain text (no `<`,
`&`, NUL or CR) and whose day texts are safe as attribute values (no `"`, `&`, NUL
or CR), every habit `h` (row `i`) and every day `d` (column `j`) whose text
`.data()` returns unchanged (as it does the text of a date): the table is parsed as
written, and a click on the cell rendered at row `i`, column `j` issues the
single request `POST /api/entry` whose body is `habit_id = h.id`, `date = d`,
`value = v`, where `v` is the flipped state: 0 when `h.entries[d] > 0` and 1
otherwise; `v` is 0 or 1. -/
theorem C5_click_sends_flipped_value (data : WeekData) (page : Page) (i j : Nat)
    (h : Habit) (d : String) (hi : data.habits[i]? = some h) (hj : data.days[j]? = some d)
    (hn : PlainNames data) (hd : SafeDays data) (hq : jqData d = DataValue.text d) :
    (renderTable data page).modelled = true ∧
    ∃ node v, (renderTable data page).cellAt i j = some node ∧
      click node = [toggleRequest h.id d v] ∧
      (toggleRequest h.id d v).data = Body.entry (.number h.id) (.text d) v ∧
      (toggleRequest h.id d v).url = "/api/entry" ∧
      v = (if 0 < (h.entries d).getD 0 then 0 else 1) ∧ (v = 0 ∨ v = 1) := by
  refine ⟨renderTable_modelled_plain data page hn hd, _, _,
    renderTable_cellAt data page i j h d hi hj (plainNames_upTo data hn i) hd,
    click_rendered h d hq, rfl, rfl, rfl, ?_⟩
  by_cases hp : 0 < (h.entries d).getD 0
  · left; rw [if_pos hp]
  · right; rw [if_neg hp]

/-- Witness of C5 on the example week: the blank second day of "Read" sends value 1. -/
theorem C5_click_witness :
    (exampleWeek.habits[0]? = some exampleHabit ∧
        exampleWeek.days[1]? = some "2024-01-02" ∧
        jqData "2024-01-02" = DataValue.text "2024-01-02") ∧
      (renderTable exampleWeek emptyPage).modelled = true ∧
      ∃ node v, (renderTable exampleWeek emptyPage).cellAt 0 1 = some node ∧
        click node = [toggleRequest exampleHabit.id "2024-01-02" v] ∧
        (toggleRequest exampleHabit.id "2024-01-02" v).data =
          Body.entry (.number exampleHabit.id) (.text "2024-01-02") v ∧
        (toggleRequest exampleHabit.id "2024-01-02" v).url = "/api/entry" ∧
        v = (if 0 < (exampleHabit.entries "2024-01-02").getD 0 then 0 else 1) ∧
        (v = 0 ∨ v = 1) :=
  ⟨⟨rfl, rfl, by decide⟩, C5_click_sends_flipped_value exampleWeek emptyPage 0 1 exampleHabit
    "2024-01-02" rfl rfl exampleWeek_plain.1 exampleWeek_plain.2 (by decide)⟩

/-- Counterexample to C5 as stated.  With the habit named `<!--` no element of class
`cell` is rendered at all, so there is nothing to click for `(h, d)` and no request
can be built.  And with a day whose text is `5` the cell exists, but `.data("date")`
turns the text into the number 5, so the request carries that number as its date and
not the day text. -/
theorem C5_counterexample_no_cell :
    ((renderTable commentWeek emptyPage).modelled = true ∧
        (renderTable commentWeek emptyPage).allCells = []) ∧
      (numberDayWeek.habits[0]? = some exampleHabit ∧ numberDayWeek.days[0]? = some "5" ∧
        ∃ node, (renderTable numberDayWeek emptyPage).cellAt 0 0 = some node ∧
          click node ≠ [toggleRequest exampleHabit.id "5" 1] ∧
          (click node).map AjaxRequest.data =
            [Body.entry (.number 1) (.number 5) 1]) := by
  refine ⟨⟨by decide, ?_⟩, rfl, rfl, ?_⟩
  · unfold Page.allCells
    rw [renderTable_body, renderTable_outside]
    have e : (tableMarkup commentWeek).body = [BodyRow.nameOnly 1 "<!--"] := by decide
    rw [e]
    rfl
  · have hn : PlainNamesUpTo numberDayWeek 0 :=
      plainNames_upTo numberDayWeek exampleWeek_plain.1 0
    have hd : SafeDays numberDayWeek := by unfold SafeDays; decide
    refine ⟨_, renderTable_cellAt numberDayWeek emptyPage 0 0 exampleHabit "5" rfl rfl hn hd,
      ?_, ?_⟩
    · decide
    · decide


theorem installed_handlers (r : BodyRow) :
    ∀ node ∈ (installed r).cells, node.handlers = [Handler.toggleCell] := by
  intro node hnode
  cases r with
  | placeholder c t => simp [installed, BodyRow.toNode, RowNode.mapCells, RowNode.cells] at hnode
  | nameOnly i n => simp [installed, BodyRow.toNode, RowNode.mapCells, RowNode.cells] at hnode
  | habitRow i n cells t p =>
    simp only [installed, BodyRow.toNode, RowNode.mapCells, RowNode.cells, List.map_map,
      List.mem_map] at hnode
    obtain ⟨c, _, rfl⟩ := hnode
    rfl

theorem renderTable_handlers (data : WeekData) (page : Page) :
    ∀ node ∈ (renderTable data page).allCells, node.handlers = [Handler.toggleCell] := by
  intro node hn
  unfold Page.allCells at hn
  rw [List.mem_append] at hn
  rcases hn with hb | ho
  · rw [renderTable_body, List.mem_flatMap] at hb
    obtain ⟨row, hrow, hnode⟩ := hb
    obtain ⟨r, _, rfl⟩ := List.mem_map.mp hrow
    exact installed_handlers r node hnode
  · rw [renderTable_outside] at ho
    obtain ⟨n, _, rfl⟩ := List.mem_map.mp ho
    rfl

theorem cellAt_mem_allCells (page : Page) (i j : Nat) (node : CellNode)
    (h : page.cellAt i j = some node) : node ∈ page.allCells := by
  unfold Page.cellAt at h
  unfold Page.allCells
  cases hr : page.body[i]? with
  | none => rw [hr] at h; cases h
  | some row =>
    rw [hr] at h
    have h1 : row ∈ page.body := List.getElem?_mem hr
    have h2 : node ∈ row.cells := List.getElem?_mem h
    exact List.mem_append_left _ (List.mem_flatMap.mpr ⟨row, h1, h2⟩)

theorem renderAll_snoc (datas : List WeekData) (data : WeekData) (page : Page) :
    renderAll (datas ++ [data]) page = renderTable data (renderAll datas page) := by
  unfold renderAll
  rw [List.foldl_append]
  rfl

/-- C6: after any number of successive `renderTable` calls (the payloads `datas`
and then `data`, so at least one; any payloads, any starting document), every
element of class `cell` in the document has exactly one click handler, the toggle
handler; a click on it issues exactly one request, the one that handler builds, and
the success of that request runs exactly one week reload (`loadWeek(currentDate)`),
however many renders came before.  And the day cells are there: when the habit
names of the last payload are plain text and its day texts are safe, the table is
parsed as written and the cell of habit `i` and day `j` is one of these elements. -/
theorem C6_single_handler_after_repeated_renders (datas : List WeekData) (data : WeekData)
    (page : Page) :
    (∀ node ∈ (renderAll (datas ++ [data]) page).allCells,
        node.handlers = [Handler.toggleCell] ∧ node.handlers.length = 1 ∧
        click node = [toggleCell node] ∧ (click node).length = 1 ∧
        ∀ req ∈ click node, ∀ app : App, onSuccess app req = [reloadEffect app]) ∧
      (∀ i j h d, data.habits[i]? = some h → data.days[j]? = some d →
        PlainNames data → SafeDays data →
          (renderAll (datas ++ [data]) page).modelled = true ∧
          ∃ node, (renderAll (datas ++ [data]) page).cellAt i j = some node ∧
            node ∈ (renderAll (datas ++ [data]) page).allCells ∧
            node.cell = dayCell h d) := by
  rw [renderAll_snoc]
  constructor
  · intro node hnode
    have hh := renderTable_handlers data _ node hnode
    have hc : click node = [toggleCell node] := by
      simp [click, hh, Handler.run]
    refine ⟨hh, by rw [hh]; rfl, hc, by rw [hc]; rfl, ?_⟩
    intro req hreq app
    rw [hc, List.mem_singleton] at hreq
    rw [hreq]
    rfl
  · intro i j h d hi hj hn hd
    have hcell := renderTable_cellAt data (renderAll datas page) i j h d hi hj
      (plainNames_upTo data hn i) hd
    exact ⟨renderTable_modelled_plain data _ hn hd, _, hcell,
      cellAt_mem_allCells _ i j _ hcell, rfl⟩

/-- Witness of C6: three renders over a document whose stray cell started with two
handlers; the first day cell of "Read" is there, has one handler, and a click on it
sends the one toggle request, whose success runs one reload. -/
theorem C6_single_handler_witness :
    ∃ node, (renderAll ([exampleWeek, emptyWeek] ++ [exampleWeek]) strayPage).cellAt 0 0 =
        some node ∧
      node.handlers.length = 1 ∧
      click node = [toggleRequest 1 "2024-01-01" 0] ∧
      (∀ req ∈ click node, onSuccess initialApp req = [reloadEffect initialApp]) ∧
      ∀ other ∈ (renderAll ([exampleWeek, emptyWeek] ++ [exampleWeek]) strayPage).allCells,
        other.handlers.length = 1 := by
  obtain ⟨hall, hex⟩ :=
    C6_single_handler_after_repeated_renders [exampleWeek, emptyWeek] exampleWeek strayPage
  obtain ⟨_, node, hcell, hmem, hdc⟩ :=
    hex 0 0 exampleHabit "2024-01-01" rfl rfl exampleWeek_plain.1 exampleWeek_plain.2
  obtain ⟨hh, hlen, hclick, _, hsucc⟩ := hall node hmem
  refine ⟨node, hcell, hlen, ?_, fun req hreq => hsucc req hreq initialApp,
    fun other ho => (hall other ho).2.1⟩
  have hn : node = ⟨dayCell exampleHabit "2024-01-01", [Handler.toggleCell]⟩ := by
    cases node with
    | mk c hs =>
      simp only at hh hdc
      rw [hh, hdc]
  rw [hn]
  exact click_rendered exampleHabit "2024-01-01" (by decide)


theorem isoChars_take_ne_nil (t : Int) : (isoChars t).take 10 ≠ [] := by
  unfold isoChars isoYear
  split_ifs <;> simp [pad4, pad6]

theorem dateStrOf_ne_empty (t : Int) : dateStrOf t ≠ "" := by
  intro h
  have h2 := congrArg String.data h
  exact isoChars_take_ne_nil t h2

theorem loadWeekParams_valid (t : Int) (searchInput : Option String) :
    loadWeekParams (some ⟨some t⟩) searchInput =
      .ok (["date=" ++ dateStrOf t] ++
        if searchText searchInput ≠ "" then
          ["search=" ++ encodeURIComponent (searchText searchInput)] else []) := by
  have hne := dateStrOf_ne_empty t
  unfold dateStrOf at hne
  cases searchInput with
  | none =>
    simp [loadWeekParams, JSDate.toISOString, searchText, dateStrOf, hne, bind, Except.bind,
      pure, Except.pure, Functor.map, Except.map]
  | some v =>
    by_cases hv : v = ""
    · simp [loadWeekParams, JSDate.toISOString, searchText, dateStrOf, hne, hv, bind,
        Except.bind, pure, Except.pure, Functor.map, Except.map]
    · simp [loadWeekParams, JSDate.toISOString, searchText, dateStrOf, hne, hv, bind,
        Except.bind, pure, Except.pure, Functor.map, Except.map]

theorem loadWeekParams_none (searchInput : Option String) :
    loadWeekParams none searchInput =
      .ok (if searchText searchInput ≠ "" then
          ["search=" ++ encodeURIComponent (searchText searchInput)] else []) := by
  cases searchInput with
  | none =>
    simp [loadWeekParams, searchText, bind, Except.bind, pure, Except.pure]
  | some v =>
    by_cases hv : v = ""
    · simp [loadWeekParams, searchText, hv, bind, Except.bind, pure, Except.pure]
    · simp [loadWeekParams, searchText, hv, bind, Except.bind, pure, Except.pure]

/-- An invalid anchor makes `toISOString` throw: no request is sent. -/
theorem loadWeek_invalid (searchInput : Option String) :
    loadWeek (some ⟨none⟩) searchInput = .error .rangeError := rfl

theorem parseParam_date (v : String) : parseParam ("date=" ++ v) = ("date", v) := by
  simp [parseParam, String.data_append, List.takeWhile, List.dropWhile]

theorem parseParam_search (v : String) : parseParam ("search=" ++ v) = ("search", v) := by
  simp [parseParam, String.data_append, List.takeWhile, List.dropWhile]


theorem loadWeek_of_params (baseDate : Option JSDate) (searchInput : Option String)
    (params : List String) (h : loadWeekParams baseDate searchInput = .ok params) :
    loadWeek baseDate searchInput =
      .ok (if params.length > 0 then "/api/week" ++ "?" ++ "&".intercalate params
        else "/api/week") := by
  simp [loadWeek, h, bind, Except.bind, pure, Except.pure]

/-- The date part of `toISOString` for a year in 0..9999. -/
theorem dateStrOf_eq (t : Int) (h0 : 0 ≤ YearFromTime t) (h1 : YearFromTime t ≤ 9999) :
    dateStrOf t =
      isoDate (YearFromTime t).toNat (MonthFromTime t + 1).toNat (DateFromTime t).toNat := by
  unfold dateStrOf sliceTo isoChars isoYear
  rw [if_pos ⟨h0, h1⟩]
  rfl

/-- The query items and the URL of `loadWeek`, case by case. -/
theorem loadWeek_cases (baseDate : Option JSDate) (searchInput : Option String)
    (hv : ∀ D, baseDate = some D → D.tv ≠ none) :
    ∃ params url, loadWeekParams baseDate searchInput = .ok params ∧
      loadWeek baseDate searchInput = .ok url ∧
      ((∃ p ∈ params, (parseParam p).1 = "date") ↔ baseDate ≠ none) ∧
      ((∃ p ∈ params, (parseParam p).1 = "search") ↔ searchText searchInput ≠ "") ∧
      (∀ p ∈ params, (parseParam p).1 = "search" →
        (parseParam p).2 = encodeURIComponent (searchText searchInput)) ∧
      (∀ t, baseDate = some ⟨some t⟩ → ∀ p ∈ params, (parseParam p).1 = "date" →
        (parseParam p).2 = dateStrOf t) ∧
      (baseDate = none → searchText searchInput = "" → url = "/api/week") ∧
      (∀ t, baseDate = some ⟨some t⟩ → searchText searchInput ≠ "" →
        url = "/api/week?date=" ++ dateStrOf t ++ "&search=" ++
          encodeURIComponent (searchText searchInput)) ∧
      (∀ t, baseDate = some ⟨some t⟩ → searchText searchInput = "" →
        url = "/api/week?date=" ++ dateStrOf t) ∧
      (baseDate = none → searchText searchInput ≠ "" →
        url = "/api/week?search=" ++ encodeURIComponent (searchText searchInput)) := by
  have hds : ("date" : String) ≠ "search" := by decide
  have hsd : ("search" : String) ≠ "date" := by decide
  cases baseDate with
  | none =>
    by_cases hs : searchText searchInput = ""
    · have hp := loadWeekParams_none searchInput
      rw [if_neg (not_not.mpr hs)] at hp
      refine ⟨_, _, hp, loadWeek_of_params _ _ _ hp, ?_, ?_, ?_, ?_, ?_, ?_, ?_, ?_⟩
      · simp
      · simp [hs]
      · simp
      · simp
      · intros; rfl
      · intro t ht; cases ht
      · intro t ht; cases ht
      · intro _ h; exact absurd hs h
    · have hp := loadWeekParams_none searchInput
      rw [if_pos hs] at hp
      refine ⟨_, _, hp, loadWeek_of_params _ _ _ hp, ?_, ?_, ?_, ?_, ?_, ?_, ?_, ?_⟩
      · simp [parseParam_search, hsd]
      · simp [parseParam_search, hs]
      · simp [parseParam_search]
      · intro t ht; cases ht
      · intro _ h; exact absurd h hs
      · intro t ht; cases ht
      · intro t ht; cases ht
      · intros
        simp only [String.intercalate, String.intercalate.go, List.length_cons,
          List.length_nil, List.cons_append, List.nil_append, gt_iff_lt, Nat.zero_lt_succ,
          if_true, zero_add, Nat.lt_add_one, Nat.lt_add_left_iff_pos]
        apply String.ext
        simp [String.data_append]
  | some D =>
    obtain ⟨tv⟩ := D
    cases tv with
    | none => exact absurd rfl (hv ⟨none⟩ rfl)
    | some t =>
      by_cases hs : searchText searchInput = ""
      · have hp := loadWeekParams_valid t searchInput
        rw [if_neg (not_not.mpr hs)] at hp
        refine ⟨_, _, hp, loadWeek_of_params _ _ _ hp, ?_, ?_, ?_, ?_, ?_, ?_, ?_, ?_⟩
        · simp [parseParam_date]
        · simp [parseParam_date, hs, hds]
        · simp [parseParam_date, hds]
        · intro t2 ht2
          injection ht2 with h1
          injection h1 with h2
          injection h2 with h3
          subst h3
          simp [parseParam_date]
        · intro h; cases h
        · intro _ _ h; exact absurd hs h
        · intro t2 ht2 _
          injection ht2 with h1
          injection h1 with h2
          injection h2 with h3
          subst h3
          simp only [String.intercalate, String.intercalate.go, List.length_cons,
            List.length_nil, List.cons_append, List.nil_append, gt_iff_lt, Nat.zero_lt_succ,
            if_true, zero_add, Nat.lt_add_one, Nat.lt_add_left_iff_pos]
          apply String.ext
          simp [String.data_append]
        · intro h; cases h
      · have hp := loadWeekParams_valid t searchInput
        rw [if_pos hs] at hp
        refine ⟨_, _, hp, loadWeek_of_params _ _ _ hp, ?_, ?_, ?_, ?_, ?_, ?_, ?_, ?_⟩
        · simp [parseParam_date]
        · simp [parseParam_date, parseParam_search, hs]
        · simp [parseParam_date, parseParam_search, hds]
        · intro t2 ht2
          injection ht2 with h1
          injection h1 with h2
          injection h2 with h3
          subst h3
          simp [parseParam_date, parseParam_search, hsd]
        · intro h; cases h
        · intro t2 ht2 _
          injection ht2 with h1
          injection h1 with h2
          injection h2 with h3
          subst h3
          simp only [String.intercalate, String.intercalate.go, List.length_cons,
            List.length_nil, List.cons_append, List.nil_append, gt_iff_lt, Nat.zero_lt_succ,
            if_true, zero_add, Nat.lt_add_one, Nat.lt_add_left_iff_pos]
          apply String.ext
          simp [String.data_append]
        · intro _ _ h; exact absurd h hs
        · intro h; cases h



/-- C7 (amended): for every anchor that is absent or a valid date, and every search
text, `loadWeek` requests a URL whose query items hold a `date` item exactly when an
anchor was supplied (its value being `toISOString().slice(0, 10)` of the anchor,
which is the ISO date `YYYY-MM-DD` of the anchor in UTC when its year is in 0..9999)
and a `search` item exactly when the search text is non-empty (its value being the
escaped text); with neither the URL is exactly `/api/week`, with both it is
`/api/week?date=<date>&search=<escaped text>`, and with only one of them the query
holds that item alone. -/
theorem C7_week_url_parameters (baseDate : Option JSDate) (searchInput : Option String)
    (hv : ∀ D, baseDate = some D → D.tv ≠ none) :
    ∃ params url, loadWeekParams baseDate searchInput = .ok params ∧
      loadWeek baseDate searchInput = .ok url ∧
      ((∃ p ∈ params, (parseParam p).1 = "date") ↔ baseDate ≠ none) ∧
      ((∃ p ∈ params, (parseParam p).1 = "search") ↔ searchText searchInput ≠ "") ∧
      (∀ p ∈ params, (parseParam p).1 = "search" →
        (parseParam p).2 = encodeURIComponent (searchText searchInput)) ∧
      (∀ t, baseDate = some ⟨some t⟩ → ∀ p ∈ params, (parseParam p).1 = "date" →
        (parseParam p).2 = dateStrOf t) ∧
      (baseDate = none → searchText searchInput = "" → url = "/api/week") ∧
      (∀ t, baseDate = some ⟨some t⟩ → searchText searchInput ≠ "" →
        url = "/api/week?date=" ++ dateStrOf t ++ "&search=" ++
          encodeURIComponent (searchText searchInput)) ∧
      (∀ t, baseDate = some ⟨some t⟩ → searchText searchInput = "" →
        url = "/api/week?date=" ++ dateStrOf t) ∧
      (baseDate = none → searchText searchInput ≠ "" →
        url = "/api/week?search=" ++ encodeURIComponent (searchText searchInput)) ∧
      (∀ t, baseDate = some ⟨some t⟩ → 0 ≤ YearFromTime t → YearFromTime t ≤ 9999 →
        dateStrOf t =
          isoDate (YearFromTime t).toNat (MonthFromTime t + 1).toNat
            (DateFromTime t).toNat) := by
  obtain ⟨params, url, h1, h2, h3, h4, h5, h6, h7, h8, h9, h10⟩ :=
    loadWeek_cases baseDate searchInput hv
  exact ⟨params, url, h1, h2, h3, h4, h5, h6, h7, h8, h9, h10,
    fun t _ h0 h1 => dateStrOf_eq t h0 h1⟩

/-- Witness of C7: the anchor 2024-01-01T00:00Z with the search text `a b`. -/
theorem C7_week_url_witness :
    (∀ D, some (JSDate.mk (some 1704067200000)) = some D → D.tv ≠ none) ∧
      loadWeek (some ⟨some 1704067200000⟩) (some "a b") =
        .ok ("/api/week?date=" ++ dateStrOf 1704067200000 ++ "&search=" ++
          encodeURIComponent (searchText (some "a b"))) ∧
      loadWeek (some ⟨some 1704067200000⟩) (some "a b") =
        .ok "/api/week?date=2024-01-01&search=a%20b" := by
  have hv : ∀ D, some (JSDate.mk (some 1704067200000)) = some D → D.tv ≠ none := by
    intro D hD
    injection hD with h1
    rw [← h1]
    exact Option.some_ne_none _
  obtain ⟨params, url, _, hu, _, _, _, _, _, hboth, _, _, _⟩ :=
    C7_week_url_parameters (some ⟨some 1704067200000⟩) (some "a b") hv
  refine ⟨hv, ?_, by decide⟩
  rw [hu, hboth 1704067200000 rfl (by decide)]

/-- Counterexample to C7 as stated: at UTC, "next week" from the week that starts on
`9999-12-27` leads to the anchor 3 January 10000, for which `loadWeek` requests
`date=+010000-01`, a text that is no ISO calendar date.  Likewise the week response
with start `+275760-09-13` installs a valid anchor, for which `loadWeek` requests
`date=+275760-09`; and after "next week" from there the anchor is the invalid date,
still supplied to `loadWeek`, which then throws a RangeError in `toISOString` and
requests no URL at all. -/
theorem C7_counterexample_far_anchor :
    lateApp.currentDate = some ⟨some 253401868800000⟩ ∧
      (nextWeekClick (fixedZone 0) 0 lateApp).1.currentDate =
        some ⟨some 253402473600000⟩ ∧
      loadWeek (nextWeekClick (fixedZone 0) 0 lateApp).1.currentDate (some "") =
        .ok "/api/week?date=+010000-01" ∧
      edgeApp.currentDate = some ⟨some maxTime⟩ ∧
      loadWeek edgeApp.currentDate (some "") = .ok "/api/week?date=+275760-09" ∧
      (nextWeekClick (fixedZone 0) 0 edgeApp).1.currentDate = some ⟨none⟩ ∧
      loadWeek (nextWeekClick (fixedZone 0) 0 edgeApp).1.currentDate (some "") =
        .error .rangeError ∧
      (nextWeekClick (fixedZone 0) 0 edgeApp).2 = [Effect.uncaught .rangeError] := by
  refine ⟨by decide, by decide, by decide, by decide, by decide, by decide, by decide,
    by decide⟩

theorem ite_range (c : Prop) [Decidable c] (a b : Int) (ha : 0 ≤ a ∧ a ≤ 11)
    (hb : 0 ≤ b ∧ b ≤ 11) : 0 ≤ (if c then a else b) ∧ (if c then a else b) ≤ 11 := by
  by_cases h : c
  · rw [if_pos h]; exact ha
  · rw [if_neg h]; exact hb

theorem monthOfYearDay_range (d l : Int) :
    0 ≤ monthOfYearDay d l ∧ monthOfYearDay d l ≤ 11 := by
  unfold monthOfYearDay
  repeat' apply ite_range
  all_goals decide

theorem dateOfYearDay_eq (m d l : Int) (h0 : 0 ≤ m) (h1 : m ≤ 11) :
    dateOfYearDay m d l = d - monthStart m l + 1 := by
  interval_cases m <;> simp only [monthStart, dateOfYearDay] <;> omega

/-- The local date `delta` days on, with the same time of day, as `setDate` builds it
from the local fields. -/
theorem MakeDate_shift (lt delta : Int) :
    MakeDate (MakeDay (YearFromTime lt) (MonthFromTime lt) (DateFromTime lt + delta))
        (TimeWithinDay lt) = lt + delta * msPerDay := by
  have hr := monthOfYearDay_range (DayWithinYear lt) (InLeapYear lt)
  have hq := Int.ediv_add_emod lt msPerDay
  unfold MakeDay DateFromTime MonthFromTime DayWithinYear InLeapYear TimeWithinDay Day
    MakeDate
  unfold InLeapYear DayWithinYear Day at hr
  generalize monthOfYearDay (lt / msPerDay - DayFromYear (YearFromTime lt))
    (if DaysInYear (YearFromTime lt) = 366 then 1 else 0) = m at *
  have hdiv : m / 12 = 0 := by omega
  have hmod : m % 12 = m := by omega
  simp only [hdiv, hmod, add_zero]
  generalize (if DaysInYear (YearFromTime lt) = 366 then (1 : Int) else 0) = l
  generalize DayFromYear (YearFromTime lt) = dy
  rw [dateOfYearDay_eq m _ l hr.1 hr.2]
  generalize monthStart m l = ms
  generalize lt / msPerDay = q at *
  generalize lt % msPerDay = r at *
  linarith

/-- `d.setDate(d.getDate() + delta)` on a valid date: the local time `delta` days on,
read back in the zone and clipped to the representable range. -/
theorem setDate_getDate (tz : Zone) (t delta : Int) :
    (JSDate.mk (some t)).setDate tz
        (((JSDate.mk (some t)).getDate tz).map fun n => n + delta) =
      ⟨TimeClip (shiftedTime tz t delta)⟩ := by
  show JSDate.mk (TimeClip (UTC tz (MakeDate (MakeDay (YearFromTime (LocalTime tz t))
    (MonthFromTime (LocalTime tz t)) (DateFromTime (LocalTime tz t) + delta))
    (TimeWithinDay (LocalTime tz t))))) = _
  rw [MakeDate_shift]
  rfl

theorem shiftAnchor_valid (tz : Zone) (now delta t : Int) :
    shiftAnchor tz now delta (some ⟨some t⟩) = ⟨TimeClip (shiftedTime tz t delta)⟩ :=
  setDate_getDate tz t delta

theorem TimeClip_of_le (t : Int) (h1 : -maxTime ≤ t) (h2 : t ≤ maxTime) :
    TimeClip t = some t := by
  unfold TimeClip
  rw [if_neg]
  rw [not_lt, abs_le]
  exact ⟨h1, h2⟩

theorem TimeClip_of_abs (t : Int) (h : |t| ≤ maxTime) : TimeClip t = some t :=
  TimeClip_of_le t (abs_le.mp h).1 (abs_le.mp h).2

/-- One shift and the shift back, for any zone. -/
theorem shift_and_back (tz : Zone) (now t delta : Int) (app : App)
    (hcd : app.currentDate = some ⟨some t⟩) (hv : |t| ≤ maxTime)
    (hr : |shiftedTime tz t delta| ≤ maxTime)
    (hl : LocalTime tz (shiftedTime tz t delta) = LocalTime tz t + delta * msPerDay) :
    some (shiftAnchor tz now delta app.currentDate) =
        some ⟨some (shiftedTime tz t delta)⟩ ∧
      Day (LocalTime tz (shiftedTime tz t delta)) = Day (LocalTime tz t) + delta ∧
      TimeWithinDay (LocalTime tz (shiftedTime tz t delta)) =
        TimeWithinDay (LocalTime tz t) ∧
      (UTC tz (LocalTime tz t) = t →
        some (shiftAnchor tz now (-delta)
          (some (shiftAnchor tz now delta app.currentDate))) = app.currentDate) := by
  have h1 : shiftAnchor tz now delta app.currentDate = ⟨some (shiftedTime tz t delta)⟩ := by
    rw [hcd, shiftAnchor_valid, TimeClip_of_abs _ hr]
  refine ⟨by rw [h1], ?_, ?_, ?_⟩
  · rw [hl]; simp only [Day, msPerDay]; omega
  · rw [hl]; simp only [TimeWithinDay, msPerDay]; omega
  · intro hu
    rw [h1, shiftAnchor_valid, hcd]
    have e : shiftedTime tz (shiftedTime tz t delta) (-delta) = t := by
      unfold shiftedTime at hl ⊢
      rw [hl]
      have : LocalTime tz t + delta * msPerDay + -delta * msPerDay = LocalTime tz t := by ring
      rw [this, hu]
    rw [e, TimeClip_of_abs _ hv]

/-- C8 (amended): for every valid anchor date and every local time zone: if the
local time 7 days later exists in the zone (the date built from it reads back as that
local time, i.e. it is not skipped by a zone transition) and is a representable
date, "next week" moves the anchor to the same local time of day exactly 7 calendar
days later; if moreover the anchor is the instant its own local time denotes, "next"
followed by "previous" yields the original anchor.  The same holds for "previous
week" and "previous" followed by "next" with the local time 7 days earlier. -/
theorem C8_week_shift_round_trip (tz : Zone) (now t : Int) (app : App)
    (hcd : app.currentDate = some ⟨some t⟩) (hv : |t| ≤ maxTime) :
    (|shiftedTime tz t 7| ≤ maxTime →
      LocalTime tz (shiftedTime tz t 7) = LocalTime tz t + 7 * msPerDay →
        (nextWeekClick tz now app).1.currentDate = some ⟨some (shiftedTime tz t 7)⟩ ∧
        Day (LocalTime tz (shiftedTime tz t 7)) = Day (LocalTime tz t) + 7 ∧
        TimeWithinDay (LocalTime tz (shiftedTime tz t 7)) =
          TimeWithinDay (LocalTime tz t) ∧
        (UTC tz (LocalTime tz t) = t →
          (prevWeekClick tz now (nextWeekClick tz now app).1).1.currentDate =
            app.currentDate)) ∧
      (|shiftedTime tz t (-7)| ≤ maxTime →
        LocalTime tz (shiftedTime tz t (-7)) = LocalTime tz t + -7 * msPerDay →
          (prevWeekClick tz now app).1.currentDate = some ⟨some (shiftedTime tz t (-7))⟩ ∧
          Day (LocalTime tz (shiftedTime tz t (-7))) = Day (LocalTime tz t) + -7 ∧
          TimeWithinDay (LocalTime tz (shiftedTime tz t (-7))) =
            TimeWithinDay (LocalTime tz t) ∧
          (UTC tz (LocalTime tz t) = t →
            (nextWeekClick tz now (prevWeekClick tz now app).1).1.currentDate =
              app.currentDate)) := by
  constructor
  · intro hr hl
    exact shift_and_back tz now t 7 app hcd hv hr hl
  · intro hr hl
    exact shift_and_back tz now t (-7) app hcd hv hr hl

/-- Witness of C8: in the zone of Sao Paulo, from local midnight of 21 October 2018
"next week" reaches local midnight of 28 October and "previous week" leads back. -/
theorem C8_week_shift_witness :
    (saoPauloEarlierApp.currentDate = some ⟨some 1540090800000⟩ ∧
        |(1540090800000 : Int)| ≤ maxTime) ∧
      (nextWeekClick saoPaulo2018 0 saoPauloEarlierApp).1.currentDate =
        some ⟨some 1540695600000⟩ ∧
      (prevWeekClick saoPaulo2018 0
          (nextWeekClick saoPaulo2018 0 saoPauloEarlierApp).1).1.currentDate =
        saoPauloEarlierApp.currentDate :=
  ⟨⟨by decide, by decide⟩,
    ((C8_week_shift_round_trip saoPaulo2018 0 1540090800000 saoPauloEarlierApp (by decide)
      (by decide)).1 (by decide) (by decide)).1,
    ((C8_week_shift_round_trip saoPaulo2018 0 1540090800000 saoPauloEarlierApp (by decide)
      (by decide)).1 (by decide) (by decide)).2.2.2 (by decide)⟩

/-- Counterexample to C8 as stated: in the zone of Sao Paulo the week response with
start `2018-10-28` installs local midnight of that day (03:00 UTC); "next week" aims
at local midnight of 4 November, which the start of daylight saving skips, and lands
at 01:00 local time; "previous week" then leads to 01:00 of 28 October, one hour after
the original anchor. -/
theorem C8_counterexample_skipped_midnight :
    saoPauloApp.currentDate = some ⟨some 1540695600000⟩ ∧
      (nextWeekClick saoPaulo2018 0 saoPauloApp).1.currentDate =
        some ⟨some 1541300400000⟩ ∧
      (prevWeekClick saoPaulo2018 0 (nextWeekClick saoPaulo2018 0 saoPauloApp).1).1.currentDate =
        some ⟨some 1540699200000⟩ ∧
      (prevWeekClick saoPaulo2018 0 (nextWeekClick saoPaulo2018 0 saoPauloApp).1).1.currentDate ≠
        saoPauloApp.currentDate := by
  refine ⟨by decide, by decide, by decide, by decide⟩

/-- The trimmed text is empty exactly when the text holds whitespace only. -/
theorem jsTrim_eq_empty_iff (s : String) :
    jsTrim s = "" ↔ ∀ c ∈ s.data, isJsSpace c = true := by
  unfold jsTrim
  constructor
  · intro h
    have h1 : ((s.data.dropWhile isJsSpace).reverse.dropWhile isJsSpace).reverse = [] :=
      congrArg String.data h
    rw [List.reverse_eq_nil_iff, List.dropWhile_eq_nil_iff] at h1
    have h2 : s.data.dropWhile isJsSpace = [] := by
      cases hd : s.data.dropWhile isJsSpace with
      | nil => rfl
      | cons a as =>
        have ha : isJsSpace a = true := h1 a (by rw [hd]; simp)
        have hna := List.head_dropWhile_not isJsSpace s.data (by rw [hd]; simp)
        simp only [hd, List.head_cons] at hna
        rw [ha] at hna
        cases hna
    exact List.dropWhile_eq_nil_iff.mp h2
  · intro h
    have h2 : s.data.dropWhile isJsSpace = [] := List.dropWhile_eq_nil_iff.mpr h
    rw [h2]
    rfl

theorem addHabitClick_empty (app : App) (h : jsTrim app.newHabitInput = "") :
    addHabitClick app = (app, [Effect.alert "Enter habit name"]) := by
  unfold addHabitClick
  simp only [h, if_true]

theorem addHabitClick_nonempty (app : App) (h : jsTrim app.newHabitInput ≠ "") :
    addHabitClick app =
      (app, [Effect.ajax (createHabitRequest (jsTrim app.newHabitInput))]) := by
  unfold addHabitClick
  simp only [h, if_false]
  rfl

/-- C9: for every text in the new-habit input, the "add habit" click sends a
create-habit request exactly when the text is non-empty after trimming (that is,
when it does not consist of whitespace only); a text that trims to the empty string
raises the alert "Enter habit name", sends no request and leaves the input and the
anchor date unchanged; otherwise the single request is `POST /api/habit` with body
`name = <trimmed text>`. -/
theorem C9_add_habit_request_iff_nonempty (app : App) :
    ((∃ req, Effect.ajax req ∈ (addHabitClick app).2) ↔ jsTrim app.newHabitInput ≠ "") ∧
      (jsTrim app.newHabitInput = "" ↔ ∀ c ∈ app.newHabitInput.data, isJsSpace c = true) ∧
      (jsTrim app.newHabitInput = "" →
        (addHabitClick app).2 = [Effect.alert "Enter habit name"] ∧
        (∀ req, Effect.ajax req ∉ (addHabitClick app).2) ∧
        (addHabitClick app).1.newHabitInput = app.newHabitInput ∧
        (addHabitClick app).1.currentDate = app.currentDate) ∧
      (jsTrim app.newHabitInput ≠ "" →
        (addHabitClick app).2 =
          [Effect.ajax (createHabitRequest (jsTrim app.newHabitInput))] ∧
        (createHabitRequest (jsTrim app.newHabitInput)).data =
          Body.habit (jsTrim app.newHabitInput) ∧
        (createHabitRequest (jsTrim app.newHabitInput)).url = "/api/habit") := by
  refine ⟨?_, jsTrim_eq_empty_iff _, ?_, ?_⟩
  · by_cases h : jsTrim app.newHabitInput = ""
    · rw [addHabitClick_empty app h]
      simp [h]
    · rw [addHabitClick_nonempty app h]
      simp [h]
  · intro h
    rw [addHabitClick_empty app h]
    simp
  · intro h
    rw [addHabitClick_nonempty app h]
    exact ⟨rfl, rfl, rfl⟩

/-- The defect behind C10, evaluated: one hour east of Greenwich, the week response
with `start = 2024-01-01` installs the anchor 2023-12-31T23:00:00Z, and the reload
after a toggle or an added habit requests `date=2023-12-31`, the day before the
displayed start. -/
theorem C10_reload_requests_previous_day :
    (loadWeekDone (fixedZone 3600000) exampleWeek initialApp).currentDate =
        some ⟨some 1704063600000⟩ ∧
      reloadEffect (loadWeekDone (fixedZone 3600000) exampleWeek initialApp) =
        Effect.getJSON "/api/week?date=2023-12-31" ∧
      onSuccess (loadWeekDone (fixedZone 3600000) exampleWeek initialApp)
          (toggleRequest 1 "2024-01-01" 0) =
        [Effect.getJSON "/api/week?date=2023-12-31"] ∧
      exampleWeek.start = "2024-01-01" := by
  refine ⟨by decide, by decide, by decide, rfl⟩


/-! ## Calendar correctness and the reload date -/

theorem DaysInMonth_eq (y m : Int) :
    DaysInMonth y m = monthLength m (if DaysInYear y = 366 then 1 else 0) := by
  unfold DaysInMonth monthLength
  split_ifs <;> rfl

theorem DayFromYear_succ (y : Int) :
    DayFromYear (y + 1) = DayFromYear y + DaysInYear y := by
  unfold DayFromYear DaysInYear
  split_ifs <;> omega

theorem DayFromYear_lt (a b : Int) (h : a < b) : DayFromYear a < DayFromYear b := by
  unfold DayFromYear
  omega

theorem YearFromDay_unique (D y : Int) (h1 : DayFromYear y ≤ D)
    (h2 : D < DayFromYear (y + 1)) : YearFromDay D = y := by
  obtain ⟨s1, s2⟩ := YearFromDay_spec D
  by_contra hne
  rcases lt_or_gt_of_ne hne with hlt | hgt
  · have : YearFromDay D + 1 ≤ y := hlt
    rcases eq_or_lt_of_le this with he | hl
    · rw [he] at s2; omega
    · have := DayFromYear_lt _ _ hl; omega
  · have : y + 1 ≤ YearFromDay D := hgt
    rcases eq_or_lt_of_le this with he | hl
    · rw [← he] at s1; omega
    · have := DayFromYear_lt _ _ hl; omega

set_option maxRecDepth 100000 in
/-- Every day `d + 1` of every month `m + 1` falls, as a day of the year, in that
month and on that day (both leap flags). -/
theorem month_table : ∀ l : Nat, l < 2 → ∀ m : Nat, m < 12 → ∀ d : Nat, d < 31 →
    (d : Int) + 1 ≤ monthLength (m + 1) l →
      monthOfYearDay (monthStart m l + (d + 1) - 1) l = m ∧
      dateOfYearDay m (monthStart m l + (d + 1) - 1) l = d + 1 ∧
      monthStart m l + (d + 1) - 1 < 365 + l := by
  decide

set_option maxRecDepth 100000 in
theorem monthStart_nonneg : ∀ l : Nat, l < 2 → ∀ m : Nat, m < 12 →
    0 ≤ monthStart (m : Int) l := by
  decide

set_option maxRecDepth 100000 in
/-- Every day of the year gets a day of the month between 1 and 31. -/
theorem yearDay_table : ∀ l : Nat, l < 2 → ∀ w : Nat, w < 366 → (w : Int) < 365 + l →
    1 ≤ dateOfYearDay (monthOfYearDay w l) w l ∧
      dateOfYearDay (monthOfYearDay w l) w l ≤ 31 := by
  decide

theorem leapFlag_cases (y : Int) :
    ((if DaysInYear y = 366 then (1 : Int) else 0) = 0 ∧ DaysInYear y = 365) ∨
      ((if DaysInYear y = 366 then (1 : Int) else 0) = 1 ∧ DaysInYear y = 366) := by
  by_cases h : DaysInYear y = 366
  · exact Or.inr ⟨if_pos h, h⟩
  · refine Or.inl ⟨if_neg h, ?_⟩
    unfold DaysInYear at h ⊢
    split_ifs at h ⊢ <;> simp_all

theorem MakeDay_valid (y m d : Nat) (hv : ValidDate y m d) :
    MakeDay y ((m : Int) - 1) d =
      DayFromYear y + monthStart ((m : Int) - 1) (if DaysInYear y = 366 then 1 else 0) +
        d - 1 := by
  obtain ⟨_, h1, h2, _, _⟩ := hv
  have hdiv : ((m : Int) - 1) / 12 = 0 := by omega
  have hmod : ((m : Int) - 1) % 12 = (m : Int) - 1 := by omega
  simp only [MakeDay, hdiv, hmod, add_zero]

/-- The fields of any time value within the day `MakeDay y (m - 1) d` of a valid date
are `y`, `m - 1` and `d`. -/
theorem fields_of_valid (y m d : Nat) (hv : ValidDate y m d) (t : Int)
    (ht : Day t = MakeDay y ((m : Int) - 1) d) :
    YearFromTime t = y ∧ MonthFromTime t = (m : Int) - 1 ∧ DateFromTime t = d := by
  have hmk := MakeDay_valid y m d hv
  obtain ⟨_, h1, h2, h3, h4⟩ := hv
  rw [DaysInMonth_eq] at h4
  obtain ⟨m', rfl⟩ : ∃ m', m = m' + 1 := ⟨m - 1, by omega⟩
  obtain ⟨d', rfl⟩ : ∃ d', d = d' + 1 := ⟨d - 1, by omega⟩
  have hm' : m' < 12 := by omega
  have e1 : ((m' + 1 : Nat) : Int) - 1 = (m' : Int) := by push_cast; ring
  have e2 : ((m' + 1 : Nat) : Int) = (m' : Int) + 1 := by push_cast; ring
  have e3 : ((d' + 1 : Nat) : Int) = (d' : Int) + 1 := by push_cast; ring
  rw [e1] at hmk ht ⊢
  rw [e2, e3] at h4
  rw [e3] at hmk ht ⊢
  have key : ∃ l : Nat, l < 2 ∧ (if DaysInYear y = 366 then (1 : Int) else 0) = l ∧
      DaysInYear y = 365 + l := by
    rcases leapFlag_cases y with ⟨a, b⟩ | ⟨a, b⟩
    · exact ⟨0, by decide, by rw [a]; rfl, by rw [b]; rfl⟩
    · exact ⟨1, by decide, by rw [a]; rfl, by rw [b]; rfl⟩
  obtain ⟨l, hl, hf, hdy⟩ := key
  rw [hf] at hmk h4
  have hd' : d' < 31 := by
    have : monthLength ((m' : Int) + 1) l ≤ 31 := by
      unfold monthLength; split_ifs <;> omega
    omega
  obtain ⟨t1, t2, t4⟩ := month_table l hl m' hm' d' hd' h4
  have t3 := monthStart_nonneg l hl m' hm'
  have hD : Day t = DayFromYear y + (monthStart m' l + (d' + 1) - 1) := by
    rw [ht, hmk]; ring
  have hY : YearFromTime t = y := by
    unfold YearFromTime
    apply YearFromDay_unique
    · rw [hD]; omega
    · rw [hD, DayFromYear_succ, hdy]; omega
  have hL : InLeapYear t = l := by
    unfold InLeapYear; rw [hY, hf]
  have hW : DayWithinYear t = monthStart m' l + (d' + 1) - 1 := by
    unfold DayWithinYear; rw [hY, hD]; ring
  have hM : MonthFromTime t = m' := by
    unfold MonthFromTime; rw [hW, hL, t1]
  refine ⟨hY, hM, ?_⟩
  unfold DateFromTime
  rw [hM, hW, hL, t2]

theorem digit_table : ∀ k : Nat, k < 10 →
    digitVal (digitChar k) = some (k : Int) ∧ digitChar k ≠ '+' ∧ digitChar k ≠ '-' := by
  decide

theorem digitChar_mod (n : Nat) : digitChar n = digitChar (n % 10) := by
  simp [digitChar]

theorem digitVal_digitChar (n : Nat) : digitVal (digitChar n) = some ((n % 10 : Nat) : Int) := by
  rw [digitChar_mod]
  exact (digit_table (n % 10) (Nat.mod_lt _ (by decide))).1

theorem num2_pad (n : Nat) (h : n < 100) :
    num2 (digitChar (n / 10)) (digitChar n) = some (n : Int) := by
  simp only [num2, digitVal_digitChar, Option.bind_eq_bind, Option.some_bind, Option.pure_def]
  congr 1
  omega

theorem num4_pad (n : Nat) (h : n < 10000) :
    num4 (digitChar (n / 1000)) (digitChar (n / 100)) (digitChar (n / 10)) (digitChar n) =
      some (n : Int) := by
  simp only [num4, num2, digitVal_digitChar, Option.bind_eq_bind, Option.some_bind,
    Option.pure_def]
  congr 1
  omega

theorem isoDate_data (y m d : Nat) :
    (isoDate y m d).data =
      [digitChar (y / 1000), digitChar (y / 100), digitChar (y / 10), digitChar y, '-',
        digitChar (m / 10), digitChar m, '-', digitChar (d / 10), digitChar d] := rfl

/-- Reading back the fields of a date text. -/
theorem isoDate_inj (y m d y2 m2 d2 : Nat) (hy : y < 10000) (hm : m < 100) (hd : d < 100)
    (hy2 : y2 < 10000) (hm2 : m2 < 100) (hd2 : d2 < 100)
    (h : isoDate y m d = isoDate y2 m2 d2) : y = y2 ∧ m = m2 ∧ d = d2 := by
  have h1 := congrArg String.data h
  rw [isoDate_data, isoDate_data] at h1
  simp only [List.cons.injEq, and_true, true_and] at h1
  obtain ⟨a1, a2, a3, a4, b1, b2, c1, c2⟩ := h1
  have e1 := num4_pad y hy
  rw [a1, a2, a3, a4, num4_pad y2 hy2] at e1
  have e2 := num2_pad m hm
  rw [b1, b2, num2_pad m2 hm2] at e2
  have e3 := num2_pad d hd
  rw [c1, c2, num2_pad d2 hd2] at e3
  injection e1 with e1
  injection e2 with e2
  injection e3 with e3
  exact ⟨by exact_mod_cast e1.symm, by exact_mod_cast e2.symm, by exact_mod_cast e3.symm⟩

/-- Outside the years 0..9999 the text starts with a sign. -/
theorem dateStrOf_sign (t : Int) (h : ¬ (0 ≤ YearFromTime t ∧ YearFromTime t ≤ 9999)) :
    (dateStrOf t).data.head? = some '+' ∨ (dateStrOf t).data.head? = some '-' := by
  unfold dateStrOf sliceTo isoChars isoYear
  rw [if_neg h]
  split_ifs
  · left; rfl
  · right; rfl

theorem isoToDate_valid (tz : Zone) (y m d : Nat) (hv : ValidDate y m d) :
    isoToDate tz (isoDate y m d) =
      ⟨TimeClip (UTC tz (MakeDate (MakeDay y ((m : Int) - 1) d) 0))⟩ := by
  obtain ⟨hy, h1, h2, h3, h4⟩ := hv
  have hdm : DaysInMonth y m ≤ 31 := by
    unfold DaysInMonth; split_ifs <;> decide
  have hd : d < 100 := by omega
  have n4 := num4_pad y (by omega)
  have n2 := num2_pad m (by omega)
  have n3 := num2_pad d hd
  have z : num2 '0' '0' = some 0 := by decide
  have hcond : (1 : Int) ≤ m ∧ (m : Int) ≤ 12 ∧ (1 : Int) ≤ d ∧ (d : Int) ≤ 31 ∧
      (0 : Int) ≤ 23 ∧ (0 : Int) ≤ 59 ∧ (0 : Int) ≤ 59 :=
    ⟨by exact_mod_cast h1, by exact_mod_cast h2, by exact_mod_cast h3, by omega, by decide,
      by decide, by decide⟩
  unfold isoToDate parseLocalDateTime
  have hdata : (isoDate y m d ++ "T00:00:00").data =
      [digitChar (y / 1000), digitChar (y / 100), digitChar (y / 10), digitChar y, '-',
        digitChar (m / 10), digitChar m, '-', digitChar (d / 10), digitChar d,
        'T', '0', '0', ':', '0', '0', ':', '0', '0'] := by
    rw [String.data_append, isoDate_data]; rfl
  rw [hdata]
  simp only [n4, n2, n3, z, dateTimeOfFields, hcond, and_self, if_true]
  rfl

theorem MakeDay_valid_bounds (y m d : Nat) (hv : ValidDate y m d) :
    DayFromYear y ≤ MakeDay y ((m : Int) - 1) d ∧
      MakeDay y ((m : Int) - 1) d < DayFromYear (y + 1) := by
  have hY := (fields_of_valid y m d hv (MakeDay y ((m : Int) - 1) d * msPerDay)
    (by simp only [Day, msPerDay]; omega)).1
  have hs := YearFromDay_spec (Day (MakeDay y ((m : Int) - 1) d * msPerDay))
  have hD : Day (MakeDay y ((m : Int) - 1) d * msPerDay) = MakeDay y ((m : Int) - 1) d := by
    simp only [Day, msPerDay]; omega
  unfold YearFromTime at hY
  rw [hY, hD] at hs
  exact hs

/-- The anchor a week response installs for a valid start date: local midnight of it. -/
theorem isoToDate_tv (tza : Int) (y m d : Nat) (hv : ValidDate y m d)
    (h1 : -msPerDay ≤ tza) (h2 : tza ≤ msPerDay) :
    isoToDate (fixedZone tza) (isoDate y m d) =
      ⟨some (MakeDay y ((m : Int) - 1) d * msPerDay - tza)⟩ := by
  rw [isoToDate_valid (fixedZone tza) y m d hv]
  obtain ⟨b1, b2⟩ := MakeDay_valid_bounds y m d hv
  have hy : y ≤ 9999 := hv.1
  have c1 : DayFromYear 0 ≤ DayFromYear y := by
    rcases Nat.eq_zero_or_pos y with h | h
    · rw [h]; rfl
    · exact le_of_lt (DayFromYear_lt 0 y (by exact_mod_cast h))
  have c2 : DayFromYear ((y : Int) + 1) ≤ DayFromYear 10000 := by
    rcases Nat.eq_or_lt_of_le hy with h | h
    · rw [h]; rfl
    · exact le_of_lt (DayFromYear_lt _ _ (by omega))
  have v0 : DayFromYear 0 = -719528 := by decide
  have v1 : DayFromYear 10000 = 2932897 := by decide
  have e : UTC (fixedZone tza) (MakeDate (MakeDay y ((m : Int) - 1) d) 0) =
      MakeDay y ((m : Int) - 1) d * msPerDay - tza := by
    unfold UTC MakeDate fixedZone; ring
  rw [e, TimeClip_of_le]
  · simp only [maxTime, msPerDay] at *; omega
  · simp only [maxTime, msPerDay] at *; omega

/-- West of Greenwich or at UTC (offset in (-24h, 0]) the reload date is the start
date itself. -/
theorem dateStrOf_anchor_west (tza : Int) (y m d : Nat) (hv : ValidDate y m d)
    (h1 : -msPerDay < tza) (h2 : tza ≤ 0) :
    dateStrOf (MakeDay y ((m : Int) - 1) d * msPerDay - tza) = isoDate y m d := by
  have hD : Day (MakeDay y ((m : Int) - 1) d * msPerDay - tza) =
      MakeDay y ((m : Int) - 1) d := by
    simp only [Day, msPerDay] at *; omega
  obtain ⟨fy, fm, fd⟩ := fields_of_valid y m d hv _ hD
  have hy : y ≤ 9999 := hv.1
  rw [dateStrOf_eq _ (by rw [fy]; omega) (by rw [fy]; omega), fy, fm, fd]
  simp

/-- East of Greenwich (offset in (0, 24h]) the anchor lies in the previous UTC day and
the reload date differs from the start date. -/
theorem dateStrOf_anchor_east (tza : Int) (y m d : Nat) (hv : ValidDate y m d)
    (h1 : 0 < tza) (h2 : tza ≤ msPerDay) :
    Day (MakeDay y ((m : Int) - 1) d * msPerDay - tza) = MakeDay y ((m : Int) - 1) d - 1 ∧
      dateStrOf (MakeDay y ((m : Int) - 1) d * msPerDay - tza) ≠ isoDate y m d := by
  have hD : Day (MakeDay y ((m : Int) - 1) d * msPerDay - tza) =
      MakeDay y ((m : Int) - 1) d - 1 := by
    simp only [Day, msPerDay] at *; omega
  refine ⟨hD, ?_⟩
  generalize MakeDay y ((m : Int) - 1) d * msPerDay - tza = t at *
  intro heq
  by_cases hr : 0 ≤ YearFromTime t ∧ YearFromTime t ≤ 9999
  · -- the fields of `t` would be those of the start date
    obtain ⟨s1, s2⟩ := YearFromDay_spec (Day t)
    rw [DayFromYear_succ] at s2
    have hmr := monthOfYearDay_range (DayWithinYear t) (InLeapYear t)
    have hw0 : 0 ≤ DayWithinYear t := by unfold DayWithinYear YearFromTime; omega
    obtain ⟨l, hl, hf, hdy⟩ : ∃ l : Nat, l < 2 ∧ InLeapYear t = l ∧
        DaysInYear (YearFromTime t) = 365 + l := by
      rcases leapFlag_cases (YearFromTime t) with ⟨a, b⟩ | ⟨a, b⟩
      · exact ⟨0, by decide, a, by rw [b]; rfl⟩
      · exact ⟨1, by decide, a, by rw [b]; rfl⟩
    have hw1 : DayWithinYear t < 365 + l := by
      unfold DayWithinYear; unfold YearFromTime at hdy ⊢; omega
    obtain ⟨w, hw⟩ : ∃ w : Nat, DayWithinYear t = w := ⟨(DayWithinYear t).toNat, by omega⟩
    have hdt := yearDay_table l hl w (by omega) (by omega)
    have hdate : DateFromTime t = dateOfYearDay (monthOfYearDay w l) w l := by
      unfold DateFromTime MonthFromTime; rw [hw, hf]
    rw [← hdate] at hdt
    rw [dateStrOf_eq t hr.1 hr.2] at heq
    have hmm : 0 ≤ MonthFromTime t ∧ MonthFromTime t ≤ 11 := hmr
    have hyv : y ≤ 9999 := hv.1
    have hdv : d < 100 := by
      have : DaysInMonth y m ≤ 31 := by
        unfold DaysInMonth; split_ifs <;> decide
      have := hv.2.2.2.2
      omega
    obtain ⟨e1, e2, e3⟩ := isoDate_inj _ _ _ y m d (by omega) (by omega) (by omega)
      (by omega) (by have := hv.2.2.1; omega) hdv heq
    have fy : YearFromTime t = y := by omega
    have fm : MonthFromTime t = (m : Int) - 1 := by omega
    have fd : DateFromTime t = d := by omega
    have hde := dateOfYearDay_eq (MonthFromTime t) (DayWithinYear t) (InLeapYear t)
      hmm.1 hmm.2
    have hmk := MakeDay_valid y m d hv
    have hfl : InLeapYear t = if DaysInYear (y : Int) = 366 then 1 else 0 := by
      unfold InLeapYear; rw [fy]
    have hday : Day t = DayFromYear y + DayWithinYear t := by
      unfold DayWithinYear; rw [fy]; ring
    have hdd : DateFromTime t =
        DayWithinYear t - monthStart (MonthFromTime t) (InLeapYear t) + 1 := hde
    rw [fm, hfl] at hdd
    rw [fd] at hdd
    omega
  · rcases dateStrOf_sign t hr with hs | hs
    · rw [heq, isoDate_data] at hs
      simp only [List.head?_cons, Option.some.injEq] at hs
      rw [digitChar_mod] at hs
      exact (digit_table _ (Nat.mod_lt _ (by decide))).2.1 hs
    · rw [heq, isoDate_data] at hs
      simp only [List.head?_cons, Option.some.injEq] at hs
      rw [digitChar_mod] at hs
      exact (digit_table _ (Nat.mod_lt _ (by decide))).2.2 hs


/-- The reload after a week response, for every valid start date and every fixed zone
offset in (-24h, 24h]: the response installs local midnight of the start date as the
anchor, and `loadWeek(currentDate)` then sends `date=` followed by the UTC date of
that instant; it is the start date when the offset is at most 0 and differs from
it (being in the previous UTC day) for every positive offset. -/
theorem reload_date_by_offset (tza : Int) (y m d : Nat) (hv : ValidDate y m d)
    (data : WeekData) (app : App) (hs : data.start = isoDate y m d)
    (h1 : -msPerDay < tza) (h2 : tza ≤ msPerDay) :
    ∃ t, (loadWeekDone (fixedZone tza) data app).currentDate = some ⟨some t⟩ ∧
      t = MakeDay y ((m : Int) - 1) d * msPerDay - tza ∧
      (∃ rest, loadWeekParams (loadWeekDone (fixedZone tza) data app).currentDate
          (loadWeekDone (fixedZone tza) data app).searchInput =
            .ok (("date=" ++ dateStrOf t) :: rest)) ∧
      (tza ≤ 0 → dateStrOf t = data.start) ∧
      (0 < tza → dateStrOf t ≠ data.start ∧
        Day t = MakeDay y ((m : Int) - 1) d - 1) := by
  have hcd : (loadWeekDone (fixedZone tza) data app).currentDate =
      some ⟨some (MakeDay y ((m : Int) - 1) d * msPerDay - tza)⟩ := by
    show some (isoToDate (fixedZone tza) data.start) = _
    rw [hs, isoToDate_tv tza y m d hv (le_of_lt h1) h2]
  refine ⟨_, hcd, rfl, ?_, ?_, ?_⟩
  · rw [hcd, loadWeekParams_valid]
    exact ⟨_, rfl⟩
  · intro h0
    rw [hs]
    exact dateStrOf_anchor_west tza y m d hv h1 h0
  · intro h0
    rw [hs]
    obtain ⟨a, b⟩ := dateStrOf_anchor_east tza y m d hv h0 h2
    exact ⟨b, a⟩

/-- The start date of the example week is a valid date, written `2024-01-01`. -/
theorem exampleWeek_start_valid :
    ValidDate 2024 1 1 ∧ exampleWeek.start = isoDate 2024 1 1 := by
  refine ⟨⟨by decide, by decide, by decide, by decide, by decide⟩, by decide⟩

/-- The reload on the example week: at UTC and five hours west the requested date is
the start date; one hour east and five and a half hours east it is not. -/
theorem reload_date_examples :
    reloadEffect (loadWeekDone (fixedZone 0) exampleWeek initialApp) =
        Effect.getJSON "/api/week?date=2024-01-01" ∧
      reloadEffect (loadWeekDone (fixedZone (-18000000)) exampleWeek initialApp) =
        Effect.getJSON "/api/week?date=2024-01-01" ∧
      reloadEffect (loadWeekDone (fixedZone 19800000) exampleWeek initialApp) =
        Effect.getJSON "/api/week?date=2023-12-31" ∧
      (∃ t, (loadWeekDone (fixedZone 3600000) exampleWeek initialApp).currentDate = some ⟨some t⟩ ∧
        dateStrOf t ≠ exampleWeek.start) := by
  refine ⟨by decide, by decide, by decide, ?_⟩
  obtain ⟨t, h1, _, _, _, h5⟩ := reload_date_by_offset 3600000 2024 1 1
    exampleWeek_start_valid.1 exampleWeek initialApp exampleWeek_start_valid.2
    (by decide) (by decide)
  exact ⟨t, h1, (h5 (by decide)).1⟩


theorem hex_table : ∀ k : Nat, k < 16 → isUnreserved (hexChar k) = true := by
  decide

theorem hexChar_unreserved (n : Nat) : isUnreserved (hexChar n) = true := by
  have h : hexChar n = hexChar (n % 16) := by simp [hexChar]
  rw [h]
  exact hex_table _ (Nat.mod_lt _ (by decide))

/-- The escaped text holds only unreserved characters and percent signs (so none
of `&`, `=`, `?`, `#`, space). -/
theorem encodeURIComponent_chars (s : String) :
    ∀ c ∈ (encodeURIComponent s).data, c = '%' ∨ isUnreserved c = true := by
  intro c hc
  unfold encodeURIComponent at hc
  simp only [List.mem_flatMap] at hc
  obtain ⟨a, _, hca⟩ := hc
  unfold encodeChar at hca
  split_ifs at hca with hu
  · rw [List.mem_singleton] at hca
    rw [hca]; exact Or.inr hu
  · simp only [List.mem_flatMap, List.mem_cons, List.mem_singleton, List.not_mem_nil,
      or_false] at hca
    obtain ⟨b, _, h | h | h⟩ := hca
    · exact Or.inl h
    · rw [h]; exact Or.inr (hexChar_unreserved _)
    · rw [h]; exact Or.inr (hexChar_unreserved _)

end HabitTracker
